import Mathlib

/-!
The Table/Record engine of package `godac`.

A shallow embedding of `table.go` and `types.go` (package `godac`) and a
verification of the statements the engine generates.

Conventions of the embedding.

* Go's `interface{}` values are the inductive type `Value`; a record
  (`Map`, Go's `map[string]interface{}`) is an association list whose first
  binding of a key is the one that counts.
* Methods with a pointer receiver `*Table` that may change the table return
  the table they leave behind.
* A Go run-time panic (index out of range) is the outer `Option` of an
  operation: `none` is a panic, `some _` a normal return.  Go errors are
  ordinary values of type `Error`.
* Function values and rule objects stored in a table (`ActionFunc`,
  `validation.Rule`) are represented by identifiers; what they do, and what
  the SQL executor answers, is given by an environment `Env`.
* Reads (`Select`, the `Count` family, `Record(true)`) do not change the
  executor; the statements they hand over are the field `queried` of their
  outcome, and the answers come from a `Reader` or a `DataSet`.
-/

namespace Godac

/-! ## Values, records, errors -/

/-- Go `interface{}` values that occur in records and in value providers.
`func out` is a function value `func() interface{}` whose call returns `out`. -/
inductive Value where
  | nil : Value
  | bool (b : Bool) : Value
  | int (n : Int) : Value
  | str (s : String) : Value
  | func (out : Value) : Value
  deriving DecidableEq, Repr

/-- Association list standing for a Go map with string keys. -/
abbrev Assoc (α : Type) := List (String × α)

/-- Go `v, exist := m[k]`: the first binding of `k`, if any. -/
def Assoc.get? {α : Type} : Assoc α → String → Option α
  | [], _ => none
  | (k, v) :: rest, key => if k = key then some v else Assoc.get? rest key

/-- Go `m[k] = v`: replaces the binding of `k` in place, or adds one. -/
def Assoc.set {α : Type} : Assoc α → String → α → Assoc α
  | [], key, v => [(key, v)]
  | (k, w) :: rest, key, v =>
    if k = key then (k, v) :: rest else (k, w) :: Assoc.set rest key v

/-- Map is a shortcut for `map[string]interface{}`, a database record. -/
abbrev Map := Assoc Value

/-- Go `record[key]` in a one-value context: the zero value `nil` when absent. -/
def Map.index (record : Map) (key : String) : Value :=
  (Assoc.get? record key).getD Value.nil

/-- The copy loop `rec = Map{}; for k, v := range record { rec[k] = v }`.
Go leaves the iteration order of a map unspecified; the bindings are visited
from the last to the first, so that the first binding of a key is written last. -/
def Map.clone (record : Map) : Map :=
  record.foldr (fun kv acc => Assoc.set acc kv.1 kv.2) []

/-- Go `error` values: plain errors (`errors.New`, `fmt.Errorf`, executor
errors) and structured validation errors (`validation.Error`), which carry a
code and a message that `SetMessage` replaces. -/
inductive Error where
  | errorString (msg : String) : Error
  | validationError (code : String) (message : String) : Error
  deriving DecidableEq, Repr

/-- The text of an error, Go's method `Error()`. -/
def Error.text : Error → String
  | Error.errorString msg => msg
  | Error.validationError _ message => message

/-- The method `SetMessage` of a `validation.Error`. -/
def Error.SetMessage : Error → String → Error
  | Error.validationError code _, msg => Error.validationError code msg
  | e, _ => e

/-! ## Strings -/

/-- ColSepWide is column names separator. -/
def ColSepWide : String := ", "

/-- Placeholder is sql query placeholder. -/
def Placeholder : String := "?"

/-- Go `unicode.IsSpace`. -/
def isSpace (c : Char) : Bool :=
  c = '\t' || c = '\n' || c.val = 0x0B || c.val = 0x0C || c = '\r' || c = ' ' ||
  c.val = 0x85 || c.val = 0xA0 || c.val = 0x1680 ||
  (0x2000 ≤ c.val && c.val ≤ 0x200A) ||
  c.val = 0x2028 || c.val = 0x2029 || c.val = 0x202F || c.val = 0x205F || c.val = 0x3000

/-- Go `strings.TrimSpace`: leading and trailing white space removed. -/
def TrimSpace (s : String) : String :=
  String.mk ((s.toList.dropWhile isSpace).reverse.dropWhile isSpace).reverse

/-- Go `strings.Join`. -/
def Join (elems : List String) (sep : String) : String :=
  sep.intercalate elems

/-! ## Schema -/

/-- Identifier of a validation rule (a `validation.Rule` object). -/
structure Rule where
  id : String
  deriving DecidableEq, Repr

/-- Identifier of an override handler (an `ActionFunc` function value). -/
structure ActionFunc where
  id : String
  deriving DecidableEq, Repr

/-- Modelled from the spec: the type `Field` is declared in a file that is not
part of the sources at hand.  Its attributes are the ones of the data model:
name, alternate lookup key, title, the three flags, the two value providers
and the ordered validation rules. -/
structure Field where
  Name : String
  Key : String
  Title : String
  PrimaryKey : Bool
  AutoInc : Bool
  ReadOnly : Bool
  Default : Value
  OnUpdate : Value
  Validations : List Rule
  deriving DecidableEq, Repr

/-- The zero value `Field{}`. -/
def Field.zero : Field :=
  { Name := "", Key := "", Title := "", PrimaryKey := false, AutoInc := false,
    ReadOnly := false, Default := Value.nil, OnUpdate := Value.nil, Validations := [] }

/-- Modelled from the spec: `Field.GetKey` is not in the sources at hand; the
key is the Name unless the field declares an alternate lookup key. -/
def Field.GetKey (field : Field) : String :=
  if field.Key = "" then field.Name else field.Key

/-- Modelled from the spec: `Field.GetTitle` is not in the sources at hand; the
title defaults to the Name. -/
def Field.GetTitle (field : Field) : String :=
  if field.Title = "" then field.Name else field.Title

/-- Modelled from the spec: a provider is a value or a value-producing
function; its output is the value itself or what the function returns. -/
def getValue : Value → Value
  | Value.func out => out
  | v => v

/-- Modelled from the spec: `Field.GetDefault` is not in the sources at hand;
it is the output of the default provider. -/
def Field.GetDefault (field : Field) : Value := getValue field.Default

/-- Modelled from the spec: `Field.GetOnUpdate` is not in the sources at hand;
it is the output of the on-update provider. -/
def Field.GetOnUpdate (field : Field) : Value := getValue field.OnUpdate

/-- Table is a sql database table. -/
structure Table where
  active : Bool
  cols : String
  keys : List String
  keysMap : Assoc String
  primaryKey : List Nat
  autoInc : Int
  Name : String
  Fields : List Field
  OnInsert : Option ActionFunc
  OnUpdate : Option ActionFunc
  OnDelete : Option ActionFunc
  deriving DecidableEq, Repr

/-- A table as a caller declares it: the exported attributes set, the
unexported ones at their zero values. -/
def Table.declare (name : String) (fields : List Field)
    (onInsert onUpdate onDelete : Option ActionFunc) : Table :=
  { active := false, cols := "", keys := [], keysMap := [], primaryKey := [], autoInc := 0,
    Name := name, Fields := fields,
    OnInsert := onInsert, OnUpdate := onUpdate, OnDelete := onDelete }

/-! ## Table lifecycle -/

/-- The body of the loop `for i, field := range table.Fields` of `Open`,
from index `i` on.  A blank field name returns at once and leaves the
derived state as far as it was built. -/
def openLoop : Table → Nat → List Field → Table × Option Error
  | table, _, [] => (table, none)
  | table, i, field :: rest =>
    if TrimSpace field.Name = "" then
      (table, some (Error.errorString ("Fields[" ++ toString i ++ "]: name cannot be empty")))
    else
      let cols := if table.cols ≠ "" then table.cols ++ ColSepWide else table.cols
      let cols := cols ++ field.Name
      let key := field.GetKey
      openLoop
        { table with
          cols := cols
          keys := table.keys ++ [key]
          keysMap := Assoc.set table.keysMap field.Name key
          primaryKey := if field.PrimaryKey then table.primaryKey ++ [i] else table.primaryKey
          autoInc := if table.autoInc < 0 ∧ field.AutoInc then (i : Int) else table.autoInc }
        (i + 1) rest

/-- Open init the Table. -/
def Table.Open (table : Table) : Table × Option Error :=
  if table.active then (table, none)
  else if TrimSpace table.Name = "" then
    (table, some (Error.errorString "Table name cannot be empty"))
  else
    match openLoop
        { table with cols := "", keys := [], keysMap := [], primaryKey := [], autoInc := -1 }
        0 table.Fields with
    | (t, some err) => (t, some err)
    | (t, none) =>
      ({ t with cols := if t.cols = "" then "*" else t.cols, active := true }, none)

/-- Close the table. -/
def Table.Close (table : Table) : Table :=
  { table with active := false }

/-! ## Executor, contexts, results -/

/-- One call of the executor's `Exec`: the statement text and its arguments. -/
structure Statement where
  query : String
  args : List Value
  deriving DecidableEq, Repr

/-- DB is the executor (`*sql.DB` or `*sql.Tx`), seen through the statements
that were passed to its `Exec` so far, oldest first. -/
structure DB where
  executed : List Statement
  deriving DecidableEq, Repr

/-- The outcome object `sql.Result` of an execution: what `LastInsertId()` and
`RowsAffected()` return. -/
structure SqlResult where
  LastInsertId : Int × Option Error
  RowsAffected : Int × Option Error
  deriving DecidableEq, Repr

/-- State is dataset state. -/
inductive State where
  | StateUnknown : State
  | StateInsert : State
  | StateUpdate : State
  | StateDelete : State
  deriving DecidableEq, Repr

/-- Context contains the environment information on Insert/Update/Delete, as
`table.go` builds it: `Context{state, db, table, record, field}`. -/
structure Context where
  State : State
  DB : DB
  Table : Table
  Record : Map
  Field : Field
  deriving DecidableEq, Repr

/-- The type `result`: the context of the write and the execution outcome
(`none` is a nil `sql.Result`). -/
structure Result where
  context : Context
  sqlResult : Option SqlResult
  deriving DecidableEq, Repr

/-- NewResult create result. -/
def NewResult (c : Context) (r : Option SqlResult) : Result :=
  { context := c, sqlResult := r }

/-- What a write operation leaves behind: the table (opened or not), the
executor, and the Go return values `(Result, error)`. -/
structure Outcome where
  table : Table
  db : DB
  result : Option Result
  err : Option Error
  deriving DecidableEq, Repr

/-- The external collaborators.
* `Validate c value rules` is `validation.Validate(value, rules...)` of the
  validation library after `SetContext(c)` was called on every rule that
  accepts a context; rules observe the context and change nothing.
* `Exec db query args` is what the executor answers to `db.Exec(query, args...)`.
* `Action f c` is the call `f(c)` of an override handler. -/
structure Env where
  Validate : Context → Value → List Rule → Option Error
  Exec : DB → String → List Value → Option SqlResult × Option Error
  Action : ActionFunc → Context → Outcome

/-- The call `db.Exec(query, args...)`: the statement reaches the executor and
the executor answers. -/
def DB.Exec (env : Env) (db : DB) (query : String) (args : List Value) :
    DB × Option SqlResult × Option Error :=
  ({ executed := db.executed ++ [{ query := query, args := args }] }, env.Exec db query args)

/-- ValidationErrorFormat define field validation error format, `"%s: %v"`,
applied to the field title and the error. -/
def ValidationErrorFormat (title : String) (e : Error) : String :=
  title ++ ": " ++ e.text

/-- Validate field rules. -/
def validateField (env : Env) (c : Context) (value : Value) : Option Error :=
  let field := c.Field
  match env.Validate c value field.Validations with
  | some (Error.validationError code message) =>
    some ((Error.validationError code message).SetMessage
      (ValidationErrorFormat field.GetTitle (Error.validationError code message)))
  | some err => some err
  | none => none

/-! ## Primary-key WHERE clause -/

/-- The named results `(query, args, err)` of `WherePrimaryKey`, with the table. -/
structure WhereOutcome where
  table : Table
  query : String
  args : List Value
  err : Option Error
  deriving DecidableEq, Repr

/-- The loop `for _, i := range table.primaryKey` of `WherePrimaryKey`: the
conditions and arguments collected, and the error of an early return. -/
def whereLoop (table : Table) (record : Map) :
    List Nat → List String → List Value → Option (List String × List Value × Option Error)
  | [], condition, args => some (condition, args, none)
  | i :: rest, condition, args =>
    match table.keys[i]? with
    | none => none
    | some key =>
      match Assoc.get? record key with
      | none =>
        some (condition, args,
          some (Error.errorString ("Primary key " ++ key ++ " is required in record")))
      | some value =>
        match table.Fields[i]? with
        | none => none
        | some field =>
          whereLoop table record rest
            (condition ++ [field.Name ++ " = " ++ Placeholder]) (args ++ [value])

/-- WherePrimaryKey get where sql by primary key in record. -/
def Table.WherePrimaryKey (table : Table) (record : Map) : Option WhereOutcome :=
  match table.Open with
  | (t, some err) => some { table := t, query := "", args := [], err := some err }
  | (t, none) =>
    if t.primaryKey.length = 0 then
      some { table := t, query := "", args := [],
             err := some (Error.errorString
               ("The table " ++ t.Name ++ " does not define primary key")) }
    else
      match whereLoop t record t.primaryKey [] [] with
      | none => none
      | some (_, args, some err) => some { table := t, query := "", args := args, err := some err }
      | some (condition, args, none) =>
        some { table := t, query := Join condition " AND ", args := args, err := none }

/-! ## Insert -/

/-- The variables of the loop of `DefaultInsert`; `recMap` is the clone `rec`. -/
structure InsertVars where
  recMap : Map
  cols : List String
  placeholders : List String
  args : List Value
  deriving DecidableEq, Repr

/-- The loop `for i, field := range table.Fields` of `DefaultInsert`, from
index `i` on: the variables at the end, or the validation error of an early
return. -/
def insertLoop (env : Env) (db : DB) (table : Table) (record : Map) :
    Nat → List Field → InsertVars → Option (Except Error InsertVars)
  | _, [], vars => some (Except.ok vars)
  | i, field :: rest, vars =>
    if field.AutoInc then insertLoop env db table record (i + 1) rest vars
    else
      match table.keys[i]? with
      | none => none
      | some key =>
        let value := Map.index record key
        if field.ReadOnly ∧ field.Default = Value.nil then
          insertLoop env db table record (i + 1) rest vars
        else
          let value := if field.ReadOnly then Value.nil else value
          let value := if value = Value.nil then field.GetDefault else value
          let recMap := Assoc.set vars.recMap key value
          match validateField env
              { State := State.StateInsert, DB := db, Table := table, Record := recMap,
                Field := field } value with
          | some err => some (Except.error err)
          | none =>
            insertLoop env db table record (i + 1) rest
              { recMap := recMap, cols := vars.cols ++ [field.Name],
                placeholders := vars.placeholders ++ [Placeholder],
                args := vars.args ++ [value] }

/-- DefaultInsert is default Insert handler. -/
def Table.DefaultInsert (env : Env) (table : Table) (db : DB) (record : Map) :
    Option Outcome :=
  match table.Open with
  | (t, some err) => some { table := t, db := db, result := none, err := some err }
  | (t, none) =>
    match insertLoop env db t record 0 t.Fields
        { recMap := Map.clone record, cols := [], placeholders := [], args := [] } with
    | none => none
    | some (Except.error err) => some { table := t, db := db, result := none, err := some err }
    | some (Except.ok vars) =>
      let query := "INSERT INTO " ++ t.Name ++ "(" ++ Join vars.cols ColSepWide ++ ")VALUES(" ++
        Join vars.placeholders ColSepWide ++ ")"
      match DB.Exec env db query vars.args with
      | (db', rst, err) =>
        some { table := t, db := db',
               result := some (NewResult
                 { State := State.StateInsert, DB := db, Table := t, Record := vars.recMap,
                   Field := Field.zero } rst),
               err := err }

/-- Insert execute sql INSERT INTO. -/
def Table.Insert (env : Env) (table : Table) (db : DB) (record : Map) : Option Outcome :=
  match table.Open with
  | (t, some err) => some { table := t, db := db, result := none, err := some err }
  | (t, none) =>
    match t.OnInsert with
    | none => t.DefaultInsert env db record
    | some f =>
      some (env.Action f
        { State := State.StateInsert, DB := db, Table := t, Record := record,
          Field := Field.zero })

/-! ## Update -/

/-- The variables of the loop of `DefaultUpdate`; `recMap` is the clone `rec`. -/
structure UpdateVars where
  recMap : Map
  sets : List String
  args : List Value
  deriving DecidableEq, Repr

/-- The loop `for i, field := range table.Fields` of `DefaultUpdate`, from
index `i` on. -/
def updateLoop (env : Env) (db : DB) (table : Table) (record : Map) :
    Nat → List Field → UpdateVars → Option (Except Error UpdateVars)
  | _, [], vars => some (Except.ok vars)
  | i, field :: rest, vars =>
    if field.PrimaryKey ∨ field.AutoInc then updateLoop env db table record (i + 1) rest vars
    else
      match table.keys[i]? with
      | none => none
      | some key =>
        let value := Map.index record key
        let exist := (Assoc.get? record key).isSome
        if (field.ReadOnly ∨ ¬ exist) ∧ field.OnUpdate = Value.nil then
          updateLoop env db table record (i + 1) rest vars
        else
          let value := if field.ReadOnly ∨ ¬ exist then Value.nil else value
          let value := if value = Value.nil then field.GetOnUpdate else value
          let recMap := Assoc.set vars.recMap key value
          match validateField env
              { State := State.StateUpdate, DB := db, Table := table, Record := recMap,
                Field := field } value with
          | some err => some (Except.error err)
          | none =>
            updateLoop env db table record (i + 1) rest
              { recMap := recMap, sets := vars.sets ++ [field.Name ++ " = " ++ Placeholder],
                args := vars.args ++ [value] }

/-- DefaultUpdate is default Update handler. -/
def Table.DefaultUpdate (env : Env) (table : Table) (db : DB) (record : Map) :
    Option Outcome :=
  match table.WherePrimaryKey record with
  | none => none
  | some w =>
    match w.err with
    | some err => some { table := w.table, db := db, result := none, err := some err }
    | none =>
      let t := w.table
      match updateLoop env db t record 0 t.Fields
          { recMap := Map.clone record, sets := [], args := [] } with
      | none => none
      | some (Except.error err) =>
        some { table := t, db := db, result := none, err := some err }
      | some (Except.ok vars) =>
        if vars.sets.length = 0 then
          some { table := t, db := db, result := none,
                 err := some (Error.errorString
                   ("Table " ++ t.Name ++ ": not enough columns to update")) }
        else
          let query := "UPDATE " ++ t.Name ++ " SET " ++ Join vars.sets ColSepWide ++
            " WHERE " ++ w.query
          match DB.Exec env db query (vars.args ++ w.args) with
          | (db', rst, err) =>
            some { table := t, db := db',
                   result := some (NewResult
                     { State := State.StateUpdate, DB := db, Table := t, Record := vars.recMap,
                       Field := Field.zero } rst),
                   err := err }

/-- DefaultDelete is default Delete handler. -/
def Table.DefaultDelete (env : Env) (table : Table) (db : DB) (record : Map) :
    Option Outcome :=
  match table.WherePrimaryKey record with
  | none => none
  | some w =>
    match w.err with
    | some err => some { table := w.table, db := db, result := none, err := some err }
    | none =>
      let t := w.table
      let query := "DELETE FROM " ++ t.Name ++ " WHERE " ++ w.query
      match DB.Exec env db query w.args with
      | (db', rst, err) =>
        some { table := t, db := db',
               result := some (NewResult
                 { State := State.StateDelete, DB := db, Table := t, Record := record,
                   Field := Field.zero } rst),
               err := err }

/-- Go `strings.Replace(s, old, new, -1)` on the characters of a string, for
a non-empty `old`: every non-overlapping occurrence of `old`, from the left,
is replaced by `new`.  The counter is the number of characters of the current
occurrence that are still to be passed over. -/
def replaceChars (old new : List Char) : Nat → List Char → List Char
  | _, [] => []
  | skip + 1, _ :: cs => replaceChars old new skip cs
  | 0, c :: cs =>
    if old.isPrefixOf (c :: cs) then new ++ replaceChars old new (old.length - 1) cs
    else c :: replaceChars old new 0 cs

/-- Go `strings.Replace(s, old, new, -1)` for a non-empty `old`. -/
def Replace (s old new : String) : String :=
  String.mk (replaceChars old.toList new.toList 0 s.toList)

/-- Modelled from the spec: the read side of the executor.  `MapQuery` is a
function of the package that is not in the sources at hand; it executes the
query with its arguments and maps each result row into a record through the
name-to-key mapping.  `QueryRow db query args` is what
`db.QueryRow(query, args...).Scan(&count)` leaves in `count` and returns. -/
structure Reader where
  MapQuery : Assoc String → DB → String → List Value → List Map × Option Error
  QueryRow : DB → String → List Value → Int × Option Error

/-- What `Select` leaves behind: the table, the statements handed to the
executor for reading, and the Go return values `([]Map, error)`. -/
structure SelectOutcome where
  table : Table
  queried : List Statement
  rows : List Map
  err : Option Error
  deriving DecidableEq, Repr

/-- Select query sql SELECT. -/
def Table.Select (rd : Reader) (table : Table) (db : DB) (clauses : String)
    (args : List Value) : SelectOutcome :=
  match table.Open with
  | (t, some err) => { table := t, queried := [], rows := [], err := some err }
  | (t, none) =>
    let query := "SELECT " ++ t.cols ++ " FROM " ++ t.Name ++ " " ++ clauses
    { table := t, queried := [{ query := query, args := args }],
      rows := (rd.MapQuery t.keysMap db query args).1,
      err := (rd.MapQuery t.keysMap db query args).2 }

/-- What `Count` leaves behind: the table, the statements handed to the
executor for reading, and the Go return values `(int64, error)`. -/
structure CountOutcome where
  table : Table
  queried : List Statement
  count : Int
  err : Option Error
  deriving DecidableEq, Repr

/-- Count query SELECT COUNT(*).  The parameter `whereSql` is the source's `where`. -/
def Table.Count (rd : Reader) (table : Table) (db : DB) (whereSql : String)
    (args : List Value) : CountOutcome :=
  match table.Open with
  | (t, some err) => { table := t, queried := [], count := 0, err := some err }
  | (t, none) =>
    let query := "SELECT COUNT(*) FROM " ++ t.Name
    let query := if whereSql ≠ "" then query ++ " WHERE " ++ whereSql else query
    match rd.QueryRow db query args with
    | (_, some err) =>
      { table := t, queried := [{ query := query, args := args }], count := 0, err := some err }
    | (count, none) =>
      { table := t, queried := [{ query := query, args := args }], count := count, err := none }

/-- CountValue query SELECT COUNT(*) by column value. used for detect duplicate value. -/
def Table.CountValue (rd : Reader) (table : Table) (db : DB) (field : Field) (value : Value)
    (whereSql : String) (args : List Value) : CountOutcome :=
  let column := field.Name
  let condition := "= ?"
  match value with
  | Value.nil =>
    let condition := "IS NULL"
    let condition := column ++ " " ++ condition
    table.Count rd db (if whereSql = "" then condition else condition ++ " AND " ++ whereSql)
      args
  | Value.str s =>
    let column := "TRIM(" ++ column ++ ")"
    let value := Value.str (TrimSpace s)
    let condition := column ++ " " ++ condition
    table.Count rd db (if whereSql = "" then condition else condition ++ " AND " ++ whereSql)
      ([value] ++ args)
  | value =>
    let condition := column ++ " " ++ condition
    table.Count rd db (if whereSql = "" then condition else condition ++ " AND " ++ whereSql)
      ([value] ++ args)

/-- CountRecord query SELECT COUNT(*) by record. -/
def Table.CountRecord (rd : Reader) (table : Table) (db : DB) (field : Field) (record : Map)
    (excludeSelf : Bool) (whereSql : String) (args : List Value) : Option CountOutcome :=
  let continueWith := fun (table : Table) (whereSql : String) (args : List Value) =>
    match table.Open with
    | (t, some err) =>
      ({ table := t, queried := [], count := 0, err := some err } : CountOutcome)
    | (t, none) =>
      t.CountValue rd db field
        (Map.index record ((Assoc.get? t.keysMap field.Name).getD "")) whereSql args
  if excludeSelf then
    match table.WherePrimaryKey record with
    | none => none
    | some w =>
      match w.err with
      | some err => some { table := w.table, queried := [], count := 0, err := some err }
      | none =>
        let queryPK := Replace w.query "=" "<>"
        some (continueWith w.table
          (if whereSql = "" then queryPK else queryPK ++ " AND " ++ whereSql)
          (w.args ++ args))
  else some (continueWith table whereSql args)

/-! ## Result: the record of a write -/

/-- The loop `for k, v := range row { record[k] = v }`.  As in `Map.clone`,
the bindings of `row` are visited from the last to the first. -/
def Map.merge (record row : Map) : Map :=
  row.foldr (fun kv acc => Assoc.set acc kv.1 kv.2) record

/-- Modelled from the spec: DataSet is the capability `types.go` declares, of
which only `Select` is used here.  The context of `types.go` carries the
owning DataSet, the context `table.go` builds does not, so the DataSet is
handed to `Record` separately.  Its selector argument is built by the package
`sqlbuilder`, which is not in the sources at hand; it is the fragment
`WHERE <clause>`, given here as a string. -/
structure DataSet where
  Select : DB → String → List Value → List Map × Option Error

/-- Modelled from the spec: `types.go` calls
`table.WherePrimaryKey(false, false, record)`, a variant with two leading
flags that is not in the sources at hand; with both flags off it is taken to
be the primary-key clause builder of `table.go`. -/
def Table.WherePrimaryKeyFlags (table : Table) (_flag1 _flag2 : Bool) (record : Map) :
    Option WhereOutcome :=
  table.WherePrimaryKey record

/-- What `Record` leaves behind: the statements handed to the DataSet for
reading and the Go return values `(Map, error)`; `none` is a nil record. -/
structure RecordOutcome where
  queried : List Statement
  record : Option Map
  err : Option Error
  deriving DecidableEq, Repr

/-- The first half of `Record(true)`: the clone of the snapshot, with the
generated identifier written under the key of the auto-increment field when
the result is one of an insert and that field is a primary key.
`Except.error` is the early return on an error of `LastInsertId()`; `none` is
a panic (index out of range, or a nil `sql.Result`). -/
def Result.refreshRecord (r : Result) : Option (Except Error Map) :=
  let record := Map.clone r.context.Record
  let table := r.context.Table
  if r.context.State = State.StateInsert ∧ 0 ≤ table.autoInc then
    match table.Fields[table.autoInc.toNat]? with
    | none => none
    | some field =>
      if field.PrimaryKey then
        match r.sqlResult with
        | none => none
        | some sqlResult =>
          match sqlResult.LastInsertId with
          | (_, some err) => some (Except.error err)
          | (id, none) =>
            match table.keys[table.autoInc.toNat]? with
            | none => none
            | some key => some (Except.ok (Assoc.set record key (Value.int id)))
      else some (Except.ok record)
  else some (Except.ok record)

/-- The method `Record` of a result: get last Insert/Update record, set
refresh is true to requery from database. -/
def Result.Record (ds : DataSet) (r : Result) (refresh : Bool) : Option RecordOutcome :=
  if ¬ refresh then some { queried := [], record := some r.context.Record, err := none }
  else
    match r.refreshRecord with
    | none => none
    | some (Except.error err) => some { queried := [], record := none, err := some err }
    | some (Except.ok record) =>
      match r.context.Table.WherePrimaryKeyFlags false false record with
      | none => none
      | some w =>
        match w.err with
        | some err => some { queried := [], record := none, err := some err }
        | none =>
          match ds.Select r.context.DB ("WHERE " ++ w.query) w.args with
          | (_, some err) =>
            some { queried := [{ query := "WHERE " ++ w.query, args := w.args }],
                   record := none, err := some err }
          | ([], none) =>
            some { queried := [{ query := "WHERE " ++ w.query, args := w.args }],
                   record := none, err := none }
          | (row :: _, none) =>
            some { queried := [{ query := "WHERE " ++ w.query, args := w.args }],
                   record := some (Map.merge record row), err := none }

/-! ## Notions used to state the properties -/

/-- Indices, counted from `i`, of the primary-key fields of a field list. -/
def primaryKeyIndices : Nat → List Field → List Nat
  | _, [] => []
  | i, field :: rest =>
    if field.PrimaryKey then i :: primaryKeyIndices (i + 1) rest
    else primaryKeyIndices (i + 1) rest

/-- A table is consistent when its derived state, if it is marked active, is
the one `Open` computes from its Name and Fields: the table is inactive (never
opened, or closed), or it was opened and its Name and Fields were not changed
since.  A table whose Fields were changed after Open without Close carries
stale keys and indices, and every operation reads them as they are. -/
def Table.Consistent (table : Table) : Prop :=
  table.active = true → table.Close.Open = (table, none)

instance (table : Table) : Decidable table.Consistent := by
  unfold Table.Consistent; infer_instance

/-- The derived state cleared, as `Open` does before its loop. -/
def Table.cleared (table : Table) : Table :=
  { table with cols := "", keys := [], keysMap := [], primaryKey := [], autoInc := -1 }

/-- The primary-key fields of a field list, in declaration order. -/
def pkFields (fields : List Field) : List Field :=
  fields.filter (fun f => f.PrimaryKey)

/-- The first primary-key field, in declaration order, under whose key the
record holds no entry. -/
def missingKey (record : Map) (fields : List Field) : Option Field :=
  (pkFields fields).find? (fun f => (Assoc.get? record f.GetKey).isNone)

/-- The error of `WherePrimaryKey` for a key without entry in the record. -/
def missingKeyError (key : String) : Error :=
  Error.errorString ("Primary key " ++ key ++ " is required in record")

/-- The error of `WherePrimaryKey` for a table without primary key. -/
def noPrimaryKeyError (name : String) : Error :=
  Error.errorString ("The table " ++ name ++ " does not define primary key")

/-- Whether the loop of `DefaultInsert` collects a column for the field: it is
not auto-increment, and not read-only without a default provider. -/
def insertIncluded (field : Field) : Bool :=
  !field.AutoInc && !(field.ReadOnly && decide (field.Default = Value.nil))

/-- The value `DefaultInsert` resolves for a field it includes. -/
def insertValue (field : Field) (record : Map) : Value :=
  if (if field.ReadOnly then Value.nil else Map.index record field.GetKey) = Value.nil then
    field.GetDefault
  else if field.ReadOnly then Value.nil else Map.index record field.GetKey

/-- One round of the loop of `DefaultInsert` whose validation passes. -/
def insertStep (record : Map) (vars : InsertVars) (field : Field) : InsertVars :=
  if insertIncluded field then
    { recMap := Assoc.set vars.recMap field.GetKey (insertValue field record),
      cols := vars.cols ++ [field.Name],
      placeholders := vars.placeholders ++ [Placeholder],
      args := vars.args ++ [insertValue field record] }
  else vars

/-- The loop variables after the rounds of the given fields, all validations passing. -/
def insertVars (record : Map) (fields : List Field) (vars : InsertVars) : InsertVars :=
  fields.foldl (insertStep record) vars

/-- The loop variables of `DefaultInsert` before the loop. -/
def insertInit (record : Map) : InsertVars :=
  { recMap := Map.clone record, cols := [], placeholders := [], args := [] }

/-- The validation `DefaultInsert` performs in the round of `field`, which
comes after the fields `before`, when the rounds of `before` started from
`vars` and passed. -/
def insertCheck (env : Env) (db : DB) (t : Table) (record : Map) (vars : InsertVars)
    (before : List Field) (field : Field) : Option Error :=
  validateField env
    { State := State.StateInsert, DB := db, Table := t,
      Record := (insertVars record (before ++ [field]) vars).recMap, Field := field }
    (insertValue field record)

/-- Whether the loop of `DefaultUpdate` collects a SET fragment for the field:
it is neither primary key nor auto-increment, and it is not the case that it
is read-only or without entry in the record while it has no on-update provider. -/
def updateIncluded (record : Map) (field : Field) : Bool :=
  !(field.PrimaryKey || field.AutoInc) &&
  !((field.ReadOnly || !(Assoc.get? record field.GetKey).isSome) &&
    decide (field.OnUpdate = Value.nil))

/-- The value `DefaultUpdate` resolves for a field it includes. -/
def updateValue (field : Field) (record : Map) : Value :=
  if (if field.ReadOnly ∨ ¬ (Assoc.get? record field.GetKey).isSome then Value.nil
      else Map.index record field.GetKey) = Value.nil then
    field.GetOnUpdate
  else if field.ReadOnly ∨ ¬ (Assoc.get? record field.GetKey).isSome then Value.nil
    else Map.index record field.GetKey

/-- One round of the loop of `DefaultUpdate` whose validation passes. -/
def updateStep (record : Map) (vars : UpdateVars) (field : Field) : UpdateVars :=
  if updateIncluded record field then
    { recMap := Assoc.set vars.recMap field.GetKey (updateValue field record),
      sets := vars.sets ++ [field.Name ++ " = " ++ Placeholder],
      args := vars.args ++ [updateValue field record] }
  else vars

/-- The loop variables after the rounds of the given fields, all validations passing. -/
def updateVars (record : Map) (fields : List Field) (vars : UpdateVars) : UpdateVars :=
  fields.foldl (updateStep record) vars

/-- The loop variables of `DefaultUpdate` before the loop. -/
def updateInit (record : Map) : UpdateVars :=
  { recMap := Map.clone record, sets := [], args := [] }

/-- The validation `DefaultUpdate` performs in the round of `field`, which
comes after the fields `before`, when the rounds of `before` started from
`vars` and passed. -/
def updateCheck (env : Env) (db : DB) (t : Table) (record : Map) (vars : UpdateVars)
    (before : List Field) (field : Field) : Option Error :=
  validateField env
    { State := State.StateUpdate, DB := db, Table := t,
      Record := (updateVars record (before ++ [field]) vars).recMap, Field := field }
    (updateValue field record)

/-- The end of `DefaultInsert`, after a loop that ended with `vars`: the
statement is built and executed, and the outcome wrapped in a result. -/
def insertOutcome (env : Env) (t : Table) (db : DB) (vars : InsertVars) : Outcome :=
  { table := t,
    db := { executed := db.executed ++
      [{ query := "INSERT INTO " ++ t.Name ++ "(" ++ Join vars.cols ColSepWide ++ ")VALUES(" ++
           Join vars.placeholders ColSepWide ++ ")",
         args := vars.args }] },
    result := some (NewResult
      { State := State.StateInsert, DB := db, Table := t, Record := vars.recMap,
        Field := Field.zero }
      (env.Exec db ("INSERT INTO " ++ t.Name ++ "(" ++ Join vars.cols ColSepWide ++ ")VALUES(" ++
           Join vars.placeholders ColSepWide ++ ")") vars.args).1),
    err := (env.Exec db ("INSERT INTO " ++ t.Name ++ "(" ++ Join vars.cols ColSepWide ++
           ")VALUES(" ++ Join vars.placeholders ColSepWide ++ ")") vars.args).2 }

/-- A field with the given name and nothing else declared. -/
def column (name : String) : Field :=
  { Field.zero with Name := name }

/-- The table `users` of the examples: `id` (primary key, auto-increment),
`name`, `email`, `created_at` (read-only, with a default provider). -/
def users : Table :=
  Table.declare "users"
    [ { column "id" with PrimaryKey := true, AutoInc := true },
      column "name",
      column "email",
      { column "created_at" with
        ReadOnly := true, Default := Value.func (Value.str "2024-01-01 00:00:00") } ]
    none none none

/-- An environment whose rules accept every value, whose executor reports one
affected row with generated identifier 1, and whose handlers do nothing. -/
def acceptAll : Env :=
  { Validate := fun _ _ _ => none,
    Exec := fun _ _ _ => (some { LastInsertId := (1, none), RowsAffected := (1, none) }, none),
    Action := fun _ c => { table := c.Table, db := c.DB, result := none, err := none } }

/-- The error of `DefaultUpdate` when no field ended up with a value. -/
def notEnoughColumnsError (name : String) : Error :=
  Error.errorString ("Table " ++ name ++ ": not enough columns to update")

/-- The primary-key clause of a record that holds an entry for every
primary-key field: one fragment per primary-key field, joined by `" AND "`. -/
def whereQuery (fields : List Field) : String :=
  Join ((pkFields fields).map (fun f => f.Name ++ " = " ++ Placeholder)) " AND "

/-- The arguments of the primary-key clause: the record's values under the
keys of the primary-key fields, in declaration order. -/
def whereArgs (fields : List Field) (record : Map) : List Value :=
  (pkFields fields).map (fun f => Map.index record f.GetKey)

/-- The end of `DefaultUpdate`, after a loop that ended with `vars` and at
least one SET fragment: the statement is built and executed, and the outcome
wrapped in a result. -/
def updateOutcome (env : Env) (t : Table) (db : DB) (record : Map) (vars : UpdateVars) :
    Outcome :=
  { table := t,
    db := { executed := db.executed ++
      [{ query := "UPDATE " ++ t.Name ++ " SET " ++ Join vars.sets ColSepWide ++ " WHERE " ++
           whereQuery t.Fields,
         args := vars.args ++ whereArgs t.Fields record }] },
    result := some (NewResult
      { State := State.StateUpdate, DB := db, Table := t, Record := vars.recMap,
        Field := Field.zero }
      (env.Exec db ("UPDATE " ++ t.Name ++ " SET " ++ Join vars.sets ColSepWide ++ " WHERE " ++
           whereQuery t.Fields) (vars.args ++ whereArgs t.Fields record)).1),
    err := (env.Exec db ("UPDATE " ++ t.Name ++ " SET " ++ Join vars.sets ColSepWide ++
           " WHERE " ++ whereQuery t.Fields) (vars.args ++ whereArgs t.Fields record)).2 }

/-- The end of `DefaultDelete` for a record that holds an entry for every
primary-key field. -/
def deleteOutcome (env : Env) (t : Table) (db : DB) (record : Map) : Outcome :=
  { table := t,
    db := { executed := db.executed ++
      [{ query := "DELETE FROM " ++ t.Name ++ " WHERE " ++ whereQuery t.Fields,
         args := whereArgs t.Fields record }] },
    result := some (NewResult
      { State := State.StateDelete, DB := db, Table := t, Record := record,
        Field := Field.zero }
      (env.Exec db ("DELETE FROM " ++ t.Name ++ " WHERE " ++ whereQuery t.Fields)
        (whereArgs t.Fields record)).1),
    err := (env.Exec db ("DELETE FROM " ++ t.Name ++ " WHERE " ++ whereQuery t.Fields)
        (whereArgs t.Fields record)).2 }

/-- The table `audited` of the examples: `id` (primary key, auto-increment),
`name`, `created_at` (read-only, default provider only), `updated_at`
(read-only, default and on-update providers), `secret` (read-only, no
provider). -/
def audited : Table :=
  Table.declare "audited"
    [ { column "id" with PrimaryKey := true, AutoInc := true },
      column "name",
      { column "created_at" with ReadOnly := true, Default := Value.func (Value.str "t0") },
      { column "updated_at" with
        ReadOnly := true, Default := Value.func (Value.str "t0"),
        OnUpdate := Value.func (Value.str "t1") },
      { column "secret" with ReadOnly := true } ]
    none none none

/-- A record that holds a value under the key of every field of `audited`,
the read-only ones included. -/
def auditedRecord : Map :=
  [("id", Value.int 5), ("name", Value.str "b"), ("created_at", Value.str "mine"),
   ("updated_at", Value.str "mine"), ("secret", Value.str "mine")]

/-- The table `memberships` of the examples, with a primary key of two
fields; `user_id` is looked up in records under the key `user`. -/
def memberships : Table :=
  Table.declare "memberships"
    [ { column "org_id" with PrimaryKey := true },
      { column "user_id" with PrimaryKey := true, Key := "user" },
      column "role" ]
    none none none

/-- The table `accounts` of the examples: `id` (primary key, auto-increment),
`name` (titled `Name`) and `email`, both with the rule `required`. -/
def accounts : Table :=
  Table.declare "accounts"
    [ { column "id" with PrimaryKey := true, AutoInc := true },
      { column "name" with Title := "Name", Validations := [{ id := "required" }] },
      { column "email" with Validations := [{ id := "required" }] } ]
    none none none

/-- An environment whose rule `required` rejects `nil` and the empty string
with a structured validation error. -/
def strictEnv : Env :=
  { acceptAll with
    Validate := fun _ value rules =>
      if (({ id := "required" } : Rule) ∈ rules) ∧ (value = Value.nil ∨ value = Value.str "") then
        some (Error.validationError "validation_required" "cannot be blank")
      else none }

/-- The table `users` after a successful Open, its Name then set to blank. -/
def usersRenamedBlank : Table :=
  { users.Open.1 with Name := " " }

/-- One round of the loop of `Open` on a field whose name is not blank. -/
def openStep (table : Table) (i : Nat) (field : Field) : Table :=
  { table with
    cols := (if table.cols ≠ "" then table.cols ++ ColSepWide else table.cols) ++ field.Name
    keys := table.keys ++ [field.GetKey]
    keysMap := Assoc.set table.keysMap field.Name field.GetKey
    primaryKey := if field.PrimaryKey then table.primaryKey ++ [i] else table.primaryKey
    autoInc := if table.autoInc < 0 ∧ field.AutoInc then (i : Int) else table.autoInc }

/-- The table after the rounds of the loop of `Open` on the given fields,
the first of them at index `i`, none of them with a blank name. -/
def openRounds : Table → Nat → List Field → Table
  | table, _, [] => table
  | table, i, field :: rest => openRounds (openStep table i field) (i + 1) rest

/-- The index, counted from `i`, of the first auto-increment field of a field
list, and `-1` when there is none. -/
def firstAutoInc : Nat → List Field → Int
  | _, [] => -1
  | i, field :: rest => if field.AutoInc then (i : Int) else firstAutoInc (i + 1) rest

/-- The name-to-key map `Open` builds from a field list. -/
def keysMapOf (fields : List Field) : Assoc String :=
  fields.foldl (fun m f => Assoc.set m f.Name f.GetKey) []

/-- The error of `Open` for a blank field name at index `i`. -/
def blankFieldError (i : Nat) : Error :=
  Error.errorString ("Fields[" ++ toString i ++ "]: name cannot be empty")

/-- The table `users` after a successful Open, its field list then replaced
by `name`, `id` (primary key, auto-increment) and a field with a blank name. -/
def usersReordered : Table :=
  { users.Open.1 with
    Fields := [column "name", { column "id" with PrimaryKey := true, AutoInc := true },
      column " "] }

/-- The result of an insert that holds the given table, the snapshot
`{name: "a"}`, and an execution outcome whose `LastInsertId()` fails with
`no id`. -/
def insertResultOn (table : Table) : Result :=
  NewResult
    { State := State.StateInsert, DB := { executed := [] }, Table := table,
      Record := [("name", Value.str "a")], Field := Field.zero }
    (some { LastInsertId := (0, some (Error.errorString "no id")), RowsAffected := (1, none) })

/-- A reader whose queries return no row and whose count is 3. -/
def quietReader : Reader :=
  { MapQuery := fun _ _ _ _ => ([], none), QueryRow := fun _ _ _ => (3, none) }

/-- A DataSet whose Select returns no row. -/
def emptyDataSet : DataSet :=
  { Select := fun _ _ _ => ([], none) }

/-- The table `notes` of the examples: `id` (primary key, auto-increment),
`title` (on-update provider: the value `untitled`), `touched` (on-update
provider: a function whose output is nil). -/
def notes : Table :=
  Table.declare "notes"
    [ { column "id" with PrimaryKey := true, AutoInc := true },
      { column "title" with OnUpdate := Value.str "untitled" },
      { column "touched" with OnUpdate := Value.func Value.nil } ]
    none none none

/-- The table `pairs` of the examples: its primary-key column is named
`[a=b]`, a bracket-quoted identifier that contains the character `=`. -/
def pairs : Table :=
  Table.declare "pairs"
    [ { column "[a=b]" with PrimaryKey := true }, column "note" ]
    none none none

/-- The auto-increment field of a field list: the first field, in declaration
order, whose AutoInc flag is set. -/
def autoIncField (fields : List Field) : Option Field :=
  fields.find? (fun f => f.AutoInc)

/-- The record `Record(true)` returns for the answer of the DataSet: none on
an error or on an empty answer, and otherwise the given record overridden by
the first row. -/
def refreshedRecord (record : Map) : List Map × Option Error → Option Map
  | (_, some _) => none
  | ([], none) => none
  | (row :: _, none) => some (Map.merge record row)

/-- The result of an outcome, and an empty result of an unknown operation
when there is none. -/
def resultOf : Option Outcome → Result
  | some { result := some r, .. } => r
  | _ =>
    NewResult
      { State := State.StateUnknown, DB := { executed := [] },
        Table := Table.declare "" [] none none none, Record := [], Field := Field.zero }
      none

/-- The result of the insert of `{id: 7, name: "a"}` into `users`, for which
the executor reports the generated identifier 1. -/
def usersInsertResult : Result :=
  resultOf (users.DefaultInsert acceptAll { executed := [] }
    [("id", Value.int 7), ("name", Value.str "a")])

/-- The result of the update of `{id: 7, name: "b"}` in `users`. -/
def usersUpdateResult : Result :=
  resultOf (users.DefaultUpdate acceptAll { executed := [] }
    [("id", Value.int 7), ("name", Value.str "b")])

/-- A DataSet whose Select returns one row, with the stored name. -/
def storedDataSet : DataSet :=
  { Select := fun _ _ _ => ([[("name", Value.str "stored")]], none) }

/-! ## Lemmas: table lifecycle, primary-key clause, write loops -/

theorem openLoop_frame : ∀ (fields : List Field) (t : Table) (i : Nat),
    (openLoop t i fields).1.Name = t.Name ∧ (openLoop t i fields).1.Fields = t.Fields ∧
    (openLoop t i fields).1.active = t.active ∧
    (openLoop t i fields).1.OnInsert = t.OnInsert ∧
    (openLoop t i fields).1.OnUpdate = t.OnUpdate ∧
    (openLoop t i fields).1.OnDelete = t.OnDelete := by
  intro fields
  induction fields with
  | nil => intro t i; simp [openLoop]
  | cons f rest ih =>
    intro t i
    unfold openLoop
    by_cases hb : TrimSpace f.Name = ""
    · simp [hb]
    · simp only [hb, if_false]
      exact ih _ _

theorem openLoop_ok : ∀ (fields : List Field) (t : Table) (i : Nat) (t' : Table),
    openLoop t i fields = (t', none) →
    t'.keys = t.keys ++ fields.map Field.GetKey ∧
    t'.primaryKey = t.primaryKey ++ primaryKeyIndices i fields := by
  intro fields
  induction fields with
  | nil => intro t i t' h; simp [openLoop] at h; subst h; simp [primaryKeyIndices]
  | cons f rest ih =>
    intro t i t' h
    unfold openLoop at h
    by_cases hb : TrimSpace f.Name = ""
    · simp [hb] at h
    · simp only [hb, if_false] at h
      obtain ⟨h1, h2⟩ := ih _ _ _ h
      refine ⟨?_, ?_⟩
      · simp [h1]
      · rw [h2]
        by_cases hp : f.PrimaryKey = true <;> simp [hp, primaryKeyIndices]

theorem Open_inactive (table : Table) (h : table.active = false) :
    table.Open =
      if TrimSpace table.Name = "" then
        (table, some (Error.errorString "Table name cannot be empty"))
      else
        match openLoop table.cleared 0 table.Fields with
        | (t, some err) => (t, some err)
        | (t, none) =>
          ({ t with cols := if t.cols = "" then "*" else t.cols, active := true }, none) := by
  simp [Table.Open, h, Table.cleared]

theorem Open_active (table : Table) (h : table.active = true) :
    table.Open = (table, none) := by
  simp [Table.Open, h]

theorem Open_inactive_ok (table t : Table) (h : table.active = false)
    (ho : table.Open = (t, none)) :
    t.keys = t.Fields.map Field.GetKey ∧ t.primaryKey = primaryKeyIndices 0 t.Fields ∧
    t.Fields = table.Fields ∧ t.Name = table.Name ∧ t.active = true ∧
    t.OnInsert = table.OnInsert ∧ t.OnUpdate = table.OnUpdate ∧ t.OnDelete = table.OnDelete := by
  rw [Open_inactive table h] at ho
  by_cases hb : TrimSpace table.Name = ""
  · simp [hb] at ho
  · simp only [hb, if_false] at ho
    have hf := openLoop_frame table.Fields table.cleared 0
    cases hl : openLoop table.cleared 0 table.Fields with
    | mk t1 e =>
      rw [hl] at ho hf
      cases e with
      | some err => simp at ho
      | none =>
        have hk := openLoop_ok _ _ _ _ hl
        simp only [Prod.mk.injEq, and_true] at ho
        subst ho
        simp only [Table.cleared] at hf hk
        simp at hk
        obtain ⟨hf1, hf2, hf3, hf4, hf5, hf6⟩ := hf
        simp [hk, hf1, hf2, hf4, hf5, hf6]

theorem Open_ok (table t : Table) (hc : table.Consistent) (ho : table.Open = (t, none)) :
    t.keys = t.Fields.map Field.GetKey ∧ t.primaryKey = primaryKeyIndices 0 t.Fields ∧
    t.Fields = table.Fields ∧ t.Name = table.Name ∧ t.active = true ∧
    t.OnInsert = table.OnInsert ∧ t.OnUpdate = table.OnUpdate ∧ t.OnDelete = table.OnDelete := by
  cases ha : table.active with
  | false => exact Open_inactive_ok table t ha ho
  | true =>
    rw [Open_active table ha] at ho
    simp only [Prod.mk.injEq, and_true] at ho
    subst ho
    have h := Open_inactive_ok table.Close table (by simp [Table.Close]) (hc ha)
    simpa [Table.Close] using h

theorem keys_at (t : Table) (hk : t.keys = t.Fields.map Field.GetKey)
    (pre rest : List Field) (f : Field) (hs : t.Fields = pre ++ f :: rest) :
    t.keys[pre.length]? = some f.GetKey ∧ t.Fields[pre.length]? = some f := by
  have aux : ∀ {α : Type} (l1 l2 : List α) (a : α), (l1 ++ a :: l2)[l1.length]? = some a := by
    intro α l1 l2 a
    induction l1 with
    | nil => simp
    | cons b l ih => simpa using ih
  rw [hk, hs]
  refine ⟨?_, aux pre rest f⟩
  have := aux (pre.map Field.GetKey) (rest.map Field.GetKey) f.GetKey
  simpa using this

theorem whereLoop_spec (t : Table) (record : Map) (hk : t.keys = t.Fields.map Field.GetKey) :
    ∀ (rest pre : List Field) (cond : List String) (args : List Value),
    t.Fields = pre ++ rest →
    ∃ c a, whereLoop t record (primaryKeyIndices pre.length rest) cond args =
        some (c, a, (missingKey record rest).map (fun f => missingKeyError f.GetKey)) ∧
      (missingKey record rest = none →
        c = cond ++ (pkFields rest).map (fun f => f.Name ++ " = " ++ Placeholder) ∧
        a = args ++ (pkFields rest).map (fun f => Map.index record f.GetKey)) := by
  intro rest
  induction rest with
  | nil =>
    intro pre cond args _
    exact ⟨cond, args, by simp [primaryKeyIndices, whereLoop, missingKey, pkFields]⟩
  | cons f r ih =>
    intro pre cond args hs
    have hs' : t.Fields = (pre ++ [f]) ++ r := by simp [hs]
    obtain ⟨hkey, hfld⟩ := keys_at t hk pre r f hs
    by_cases hp : f.PrimaryKey = true
    · cases hg : Assoc.get? record f.GetKey with
      | none =>
        refine ⟨cond, args, ?_, ?_⟩
        · simp [primaryKeyIndices, hp, whereLoop, hkey, hg, missingKey, pkFields,
            missingKeyError]
        · simp [missingKey, pkFields, hp, hg]
      | some v =>
        obtain ⟨c, a, h1, h2⟩ := ih (pre ++ [f])
          (cond ++ [f.Name ++ " = " ++ Placeholder]) (args ++ [v]) hs'
        have hm : missingKey record (f :: r) = missingKey record r := by
          simp [missingKey, pkFields, hp, hg]
        refine ⟨c, a, ?_, ?_⟩
        · simp only [List.length_append, List.length_singleton] at h1
          simp [primaryKeyIndices, hp, whereLoop, hkey, hg, hfld, h1, hm]
        · intro h
          obtain ⟨hc, ha⟩ := h2 (hm ▸ h)
          simp [hc, ha, pkFields, hp, Map.index, hg]
    · obtain ⟨c, a, h1, h2⟩ := ih (pre ++ [f]) cond args hs'
      have hm : missingKey record (f :: r) = missingKey record r := by
        simp [missingKey, pkFields, hp]
      refine ⟨c, a, ?_, ?_⟩
      · simp only [List.length_append, List.length_singleton] at h1
        simp [primaryKeyIndices, hp, h1, hm]
      · intro h
        obtain ⟨hc, ha⟩ := h2 (hm ▸ h)
        simp [hc, ha, pkFields, hp]

theorem primaryKeyIndices_length : ∀ (fields : List Field) (i : Nat),
    (primaryKeyIndices i fields).length = (pkFields fields).length := by
  intro fields
  induction fields with
  | nil => intro i; rfl
  | cons f r ih =>
    intro i
    by_cases hp : f.PrimaryKey = true <;> simp [primaryKeyIndices, pkFields, hp, ih]

theorem WherePrimaryKey_noPK (table t : Table) (record : Map)
    (ho : table.Open = (t, none)) (hp : t.primaryKey = primaryKeyIndices 0 t.Fields)
    (hpk : pkFields t.Fields = []) :
    table.WherePrimaryKey record =
      some { table := t, query := "", args := [], err := some (noPrimaryKeyError t.Name) } := by
  have hl : t.primaryKey.length = 0 := by
    rw [hp, primaryKeyIndices_length, hpk]; rfl
  simp [Table.WherePrimaryKey, ho, hl, noPrimaryKeyError]

theorem WherePrimaryKey_missing (table t : Table) (record : Map)
    (ho : table.Open = (t, none)) (hk : t.keys = t.Fields.map Field.GetKey)
    (hp : t.primaryKey = primaryKeyIndices 0 t.Fields)
    (f : Field) (hm : missingKey record t.Fields = some f) :
    ∃ a, table.WherePrimaryKey record =
      some { table := t, query := "", args := a, err := some (missingKeyError f.GetKey) } := by
  have hl : ¬ t.primaryKey.length = 0 := by
    rw [hp, primaryKeyIndices_length]
    intro h0
    have : pkFields t.Fields = [] := List.length_eq_zero.mp h0
    simp [missingKey, this] at hm
  obtain ⟨c, a, h1, _⟩ := whereLoop_spec t record hk t.Fields [] [] [] (by simp)
  rw [hm] at h1
  simp only [List.length_nil] at h1
  rw [← hp] at h1
  exact ⟨a, by simp [Table.WherePrimaryKey, ho, hl, h1]⟩

theorem WherePrimaryKey_ok (table t : Table) (record : Map)
    (ho : table.Open = (t, none)) (hk : t.keys = t.Fields.map Field.GetKey)
    (hp : t.primaryKey = primaryKeyIndices 0 t.Fields)
    (hpk : pkFields t.Fields ≠ []) (hm : missingKey record t.Fields = none) :
    table.WherePrimaryKey record =
      some { table := t,
             query := Join ((pkFields t.Fields).map (fun f => f.Name ++ " = " ++ Placeholder))
               " AND ",
             args := (pkFields t.Fields).map (fun f => Map.index record f.GetKey),
             err := none } := by
  have hl : ¬ t.primaryKey.length = 0 := by
    rw [hp, primaryKeyIndices_length]
    intro h0
    exact hpk (List.length_eq_zero.mp h0)
  obtain ⟨c, a, h1, h2⟩ := whereLoop_spec t record hk t.Fields [] [] [] (by simp)
  rw [hm] at h1
  obtain ⟨hc', ha'⟩ := h2 hm
  simp only [List.length_nil] at h1
  rw [← hp] at h1
  simp at hc' ha'
  simp [Table.WherePrimaryKey, ho, hl, h1, hc', ha']

theorem WherePrimaryKey_fails (table t : Table) (record : Map) (e : Error)
    (ho : table.Open = (t, some e)) :
    table.WherePrimaryKey record =
      some { table := t, query := "", args := [], err := some e } := by
  simp [Table.WherePrimaryKey, ho]

theorem insertLoop_skip (env : Env) (db : DB) (t : Table) (record : Map) (i : Nat)
    (f : Field) (rest : List Field) (vars : InsertVars) (key : String)
    (hkey : t.keys[i]? = some key) (hi : insertIncluded f = false) :
    insertLoop env db t record i (f :: rest) vars =
      insertLoop env db t record (i + 1) rest vars := by
  rw [insertLoop]
  by_cases ha : f.AutoInc = true
  · simp [ha]
  · have hr : f.ReadOnly = true ∧ f.Default = Value.nil := by
      simpa [insertIncluded, ha] using hi
    simp [ha, hkey, hr.1, hr.2]

theorem insertLoop_step (env : Env) (db : DB) (t : Table) (record : Map) (i : Nat)
    (f : Field) (rest : List Field) (vars : InsertVars)
    (hkey : t.keys[i]? = some f.GetKey) (hi : insertIncluded f = true) :
    insertLoop env db t record i (f :: rest) vars =
      match insertCheck env db t record vars [] f with
      | some err => some (Except.error err)
      | none => insertLoop env db t record (i + 1) rest (insertStep record vars f) := by
  rw [insertLoop]
  have ha : f.AutoInc = false := by
    cases h : f.AutoInc <;> simp [insertIncluded, h] at hi ⊢
  have hr : ¬ (f.ReadOnly = true ∧ f.Default = Value.nil) := by
    intro h; simp [insertIncluded, h.1, h.2] at hi
  simp only [ha, hkey, hr, if_false, Bool.false_eq_true]
  simp only [insertCheck, insertVars, insertStep, hi, List.nil_append, List.foldl_cons,
    List.foldl_nil, if_true, insertValue]

theorem insertCheck_cons (env : Env) (db : DB) (t : Table) (record : Map) (vars : InsertVars)
    (f : Field) (q : List Field) (g : Field) :
    insertCheck env db t record vars (f :: q) g =
      insertCheck env db t record (insertStep record vars f) q g := rfl

theorem insertStep_excluded (record : Map) (vars : InsertVars) (f : Field)
    (hi : insertIncluded f = false) : insertStep record vars f = vars := by
  simp [insertStep, hi]

theorem insertLoop_prefix (env : Env) (db : DB) (t : Table) (record : Map)
    (hk : t.keys = t.Fields.map Field.GetKey) :
    ∀ (p pre rest : List Field) (vars : InsertVars), t.Fields = pre ++ (p ++ rest) →
    (∀ q f r, p = q ++ f :: r → insertIncluded f = true →
      insertCheck env db t record vars q f = none) →
    insertLoop env db t record pre.length (p ++ rest) vars =
      insertLoop env db t record (pre.length + p.length) rest (insertVars record p vars) := by
  intro p
  induction p with
  | nil => intro pre rest vars _ _; simp [insertVars]
  | cons f p' ih =>
    intro pre rest vars hs hv
    have hs' : t.Fields = (pre ++ [f]) ++ (p' ++ rest) := by simp [hs]
    have hkey := (keys_at t hk pre (p' ++ rest) f (by simpa using hs)).1
    have hlen : (pre ++ [f]).length + p'.length = pre.length + (f :: p').length := by
      simp; omega
    have hlen1 : (pre ++ [f]).length = pre.length + 1 := by simp
    cases hi : insertIncluded f with
    | false =>
      rw [List.cons_append, insertLoop_skip env db t record _ f _ vars _ hkey hi]
      have := ih (pre ++ [f]) rest vars hs' (by
        intro q g r hp hg
        have := hv (f :: q) g r (by simp [hp]) hg
        rwa [insertCheck_cons, insertStep_excluded record vars f hi] at this)
      rw [hlen, hlen1] at this
      rw [this]
      simp [insertVars, insertStep_excluded record vars f hi]
    | true =>
      rw [List.cons_append, insertLoop_step env db t record _ f _ vars hkey hi]
      rw [hv [] f p' rfl hi]
      have := ih (pre ++ [f]) rest (insertStep record vars f) hs' (by
        intro q g r hp hg
        have := hv (f :: q) g r (by simp [hp]) hg
        rwa [insertCheck_cons] at this)
      rw [hlen, hlen1] at this
      simp only [this]
      simp [insertVars]

theorem insertLoop_inv (env : Env) (db : DB) (t : Table) (record : Map)
    (hk : t.keys = t.Fields.map Field.GetKey) :
    ∀ (rest pre : List Field) (vars vars' : InsertVars), t.Fields = pre ++ rest →
    insertLoop env db t record pre.length rest vars = some (Except.ok vars') →
    vars' = insertVars record rest vars ∧
    ∀ q f r, rest = q ++ f :: r → insertIncluded f = true →
      insertCheck env db t record vars q f = none := by
  intro rest
  induction rest with
  | nil =>
    intro pre vars vars' _ h
    simp [insertLoop] at h
    simp [insertVars, h]
  | cons f r' ih =>
    intro pre vars vars' hs h
    have hs' : t.Fields = (pre ++ [f]) ++ r' := by simp [hs]
    have hkey := (keys_at t hk pre r' f hs).1
    have hlen1 : (pre ++ [f]).length = pre.length + 1 := by simp
    cases hi : insertIncluded f with
    | false =>
      rw [insertLoop_skip env db t record _ f _ vars _ hkey hi, ← hlen1] at h
      obtain ⟨h1, h2⟩ := ih (pre ++ [f]) vars vars' hs' h
      refine ⟨by simp [h1, insertVars, insertStep_excluded record vars f hi], ?_⟩
      intro q g r hq hg
      cases q with
      | nil =>
        simp at hq
        rw [← hq.1, hi] at hg
        exact absurd hg (by simp)
      | cons a q' =>
        simp at hq
        obtain ⟨ha, hq'⟩ := hq
        subst ha
        rw [insertCheck_cons, insertStep_excluded record vars f hi]
        exact h2 q' g r hq' hg
    | true =>
      rw [insertLoop_step env db t record _ f _ vars hkey hi] at h
      cases hc : insertCheck env db t record vars [] f with
      | some e => rw [hc] at h; simp at h
      | none =>
        rw [hc, ← hlen1] at h
        simp only at h
        obtain ⟨h1, h2⟩ := ih (pre ++ [f]) (insertStep record vars f) vars' hs' h
        refine ⟨by simp [h1, insertVars], ?_⟩
        intro q g r hq hg
        cases q with
        | nil =>
          simp at hq
          rw [← hq.1]
          exact hc
        | cons a q' =>
          simp at hq
          obtain ⟨ha, hq'⟩ := hq
          subst ha
          rw [insertCheck_cons]
          exact h2 q' g r hq' hg

theorem insertVars_lists (record : Map) : ∀ (fields : List Field) (vars : InsertVars),
    (insertVars record fields vars).cols =
      vars.cols ++ (fields.filter insertIncluded).map (fun f => f.Name) ∧
    (insertVars record fields vars).placeholders =
      vars.placeholders ++ (fields.filter insertIncluded).map (fun _ => Placeholder) ∧
    (insertVars record fields vars).args =
      vars.args ++ (fields.filter insertIncluded).map (fun f => insertValue f record) := by
  intro fields
  induction fields with
  | nil => intro vars; simp [insertVars]
  | cons f r ih =>
    intro vars
    have h := ih (insertStep record vars f)
    simp only [insertVars, List.foldl_cons] at h ⊢
    cases hi : insertIncluded f <;> simp [hi, insertStep] at h ⊢ <;> exact h

theorem updateLoop_skip (env : Env) (db : DB) (t : Table) (record : Map) (i : Nat)
    (f : Field) (rest : List Field) (vars : UpdateVars)
    (hkey : t.keys[i]? = some f.GetKey) (hi : updateIncluded record f = false) :
    updateLoop env db t record i (f :: rest) vars =
      updateLoop env db t record (i + 1) rest vars := by
  rw [updateLoop]
  by_cases ha : f.PrimaryKey = true ∨ f.AutoInc = true
  · simp [ha]
  · have ha' : f.PrimaryKey = false ∧ f.AutoInc = false := by
      simpa using ha
    have hr : (f.ReadOnly = true ∨ ¬ (Assoc.get? record f.GetKey).isSome = true) ∧
        f.OnUpdate = Value.nil := by
      unfold updateIncluded at hi
      cases h1 : f.ReadOnly <;> cases h2 : (Assoc.get? record f.GetKey).isSome <;>
        by_cases h3 : f.OnUpdate = Value.nil <;> simp_all
    rw [if_neg ha]
    simp only [hkey]
    rw [if_pos hr]

theorem updateLoop_step (env : Env) (db : DB) (t : Table) (record : Map) (i : Nat)
    (f : Field) (rest : List Field) (vars : UpdateVars)
    (hkey : t.keys[i]? = some f.GetKey) (hi : updateIncluded record f = true) :
    updateLoop env db t record i (f :: rest) vars =
      match updateCheck env db t record vars [] f with
      | some err => some (Except.error err)
      | none => updateLoop env db t record (i + 1) rest (updateStep record vars f) := by
  rw [updateLoop]
  have ha : ¬ (f.PrimaryKey = true ∨ f.AutoInc = true) := by
    intro h
    rcases h with h | h <;> simp [updateIncluded, h] at hi
  have hr : ¬ ((f.ReadOnly = true ∨ ¬ (Assoc.get? record f.GetKey).isSome = true) ∧
      f.OnUpdate = Value.nil) := by
    intro h
    rcases h with ⟨h1 | h1, h2⟩ <;> simp [updateIncluded, h1, h2] at hi
  simp only [ha, hkey, hr, if_false]
  simp only [updateCheck, updateVars, updateStep, hi, List.nil_append, List.foldl_cons,
    List.foldl_nil, if_true, updateValue]

theorem updateCheck_cons (env : Env) (db : DB) (t : Table) (record : Map) (vars : UpdateVars)
    (f : Field) (q : List Field) (g : Field) :
    updateCheck env db t record vars (f :: q) g =
      updateCheck env db t record (updateStep record vars f) q g := rfl

theorem updateStep_excluded (record : Map) (vars : UpdateVars) (f : Field)
    (hi : updateIncluded record f = false) : updateStep record vars f = vars := by
  simp [updateStep, hi]

theorem updateLoop_prefix (env : Env) (db : DB) (t : Table) (record : Map)
    (hk : t.keys = t.Fields.map Field.GetKey) :
    ∀ (p pre rest : List Field) (vars : UpdateVars), t.Fields = pre ++ (p ++ rest) →
    (∀ q f r, p = q ++ f :: r → updateIncluded record f = true →
      updateCheck env db t record vars q f = none) →
    updateLoop env db t record pre.length (p ++ rest) vars =
      updateLoop env db t record (pre.length + p.length) rest (updateVars record p vars) := by
  intro p
  induction p with
  | nil => intro pre rest vars _ _; simp [updateVars]
  | cons f p' ih =>
    intro pre rest vars hs hv
    have hs' : t.Fields = (pre ++ [f]) ++ (p' ++ rest) := by simp [hs]
    have hkey := (keys_at t hk pre (p' ++ rest) f (by simpa using hs)).1
    have hlen : (pre ++ [f]).length + p'.length = pre.length + (f :: p').length := by
      simp; omega
    have hlen1 : (pre ++ [f]).length = pre.length + 1 := by simp
    cases hi : updateIncluded record f with
    | false =>
      rw [List.cons_append, updateLoop_skip env db t record _ f _ vars hkey hi]
      have := ih (pre ++ [f]) rest vars hs' (by
        intro q g r hp hg
        have := hv (f :: q) g r (by simp [hp]) hg
        rwa [updateCheck_cons, updateStep_excluded record vars f hi] at this)
      rw [hlen, hlen1] at this
      rw [this]
      simp [updateVars, updateStep_excluded record vars f hi]
    | true =>
      rw [List.cons_append, updateLoop_step env db t record _ f _ vars hkey hi]
      rw [hv [] f p' rfl hi]
      have := ih (pre ++ [f]) rest (updateStep record vars f) hs' (by
        intro q g r hp hg
        have := hv (f :: q) g r (by simp [hp]) hg
        rwa [updateCheck_cons] at this)
      rw [hlen, hlen1] at this
      simp only [this]
      simp [updateVars]

theorem updateLoop_inv (env : Env) (db : DB) (t : Table) (record : Map)
    (hk : t.keys = t.Fields.map Field.GetKey) :
    ∀ (rest pre : List Field) (vars vars' : UpdateVars), t.Fields = pre ++ rest →
    updateLoop env db t record pre.length rest vars = some (Except.ok vars') →
    vars' = updateVars record rest vars ∧
    ∀ q f r, rest = q ++ f :: r → updateIncluded record f = true →
      updateCheck env db t record vars q f = none := by
  intro rest
  induction rest with
  | nil =>
    intro pre vars vars' _ h
    simp [updateLoop] at h
    simp [updateVars, h]
  | cons f r' ih =>
    intro pre vars vars' hs h
    have hs' : t.Fields = (pre ++ [f]) ++ r' := by simp [hs]
    have hkey := (keys_at t hk pre r' f hs).1
    have hlen1 : (pre ++ [f]).length = pre.length + 1 := by simp
    cases hi : updateIncluded record f with
    | false =>
      rw [updateLoop_skip env db t record _ f _ vars hkey hi, ← hlen1] at h
      obtain ⟨h1, h2⟩ := ih (pre ++ [f]) vars vars' hs' h
      refine ⟨by simp [h1, updateVars, updateStep_excluded record vars f hi], ?_⟩
      intro q g r hq hg
      cases q with
      | nil =>
        simp at hq
        rw [← hq.1, hi] at hg
        exact absurd hg (by simp)
      | cons a q' =>
        simp at hq
        obtain ⟨ha, hq'⟩ := hq
        subst ha
        rw [updateCheck_cons, updateStep_excluded record vars f hi]
        exact h2 q' g r hq' hg
    | true =>
      rw [updateLoop_step env db t record _ f _ vars hkey hi] at h
      cases hc : updateCheck env db t record vars [] f with
      | some e => rw [hc] at h; simp at h
      | none =>
        rw [hc, ← hlen1] at h
        simp only at h
        obtain ⟨h1, h2⟩ := ih (pre ++ [f]) (updateStep record vars f) vars' hs' h
        refine ⟨by simp [h1, updateVars], ?_⟩
        intro q g r hq hg
        cases q with
        | nil =>
          simp at hq
          rw [← hq.1]
          exact hc
        | cons a q' =>
          simp at hq
          obtain ⟨ha, hq'⟩ := hq
          subst ha
          rw [updateCheck_cons]
          exact h2 q' g r hq' hg

theorem updateVars_lists (record : Map) : ∀ (fields : List Field) (vars : UpdateVars),
    (updateVars record fields vars).sets =
      vars.sets ++ (fields.filter (updateIncluded record)).map
        (fun f => f.Name ++ " = " ++ Placeholder) ∧
    (updateVars record fields vars).args =
      vars.args ++ (fields.filter (updateIncluded record)).map (fun f => updateValue f record) := by
  intro fields
  induction fields with
  | nil => intro vars; simp [updateVars]
  | cons f r ih =>
    intro vars
    have h := ih (updateStep record vars f)
    simp only [updateVars, List.foldl_cons] at h ⊢
    cases hi : updateIncluded record f <;> simp [hi, updateStep] at h ⊢ <;> exact h

/-! ## Insert: the executed statement -/

theorem DefaultInsert_ok (env : Env) (table t : Table) (db : DB) (record : Map)
    (ho : table.Open = (t, none)) (hk : t.keys = t.Fields.map Field.GetKey)
    (hv : ∀ q f r, t.Fields = q ++ f :: r → insertIncluded f = true →
      insertCheck env db t record (insertInit record) q f = none) :
    table.DefaultInsert env db record =
      some (insertOutcome env t db (insertVars record t.Fields (insertInit record))) := by
  have h := insertLoop_prefix env db t record hk t.Fields [] [] (insertInit record)
    (by simp) (by simpa using hv)
  simp only [List.append_nil, List.length_nil, Nat.zero_add] at h
  simp only [Table.DefaultInsert, ho]
  rw [← insertInit, h]
  simp [insertLoop, insertOutcome, DB.Exec]

theorem DefaultInsert_inv (env : Env) (table t : Table) (db : DB) (record : Map)
    (ho : table.Open = (t, none)) (hk : t.keys = t.Fields.map Field.GetKey)
    (out : Outcome) (r : Result)
    (h : table.DefaultInsert env db record = some out) (hr : out.result = some r) :
    out = insertOutcome env t db (insertVars record t.Fields (insertInit record)) ∧
    ∀ q f r, t.Fields = q ++ f :: r → insertIncluded f = true →
      insertCheck env db t record (insertInit record) q f = none := by
  simp only [Table.DefaultInsert, ho] at h
  rw [← insertInit] at h
  cases hl : insertLoop env db t record 0 t.Fields (insertInit record) with
  | none => rw [hl] at h; simp at h
  | some res =>
    rw [hl] at h
    cases res with
    | error e =>
      simp at h
      rw [← h] at hr
      simp at hr
    | ok vars =>
      obtain ⟨h1, h2⟩ := insertLoop_inv env db t record hk t.Fields [] (insertInit record) vars
        (by simp) (by simpa using hl)
      refine ⟨?_, h2⟩
      simp [DB.Exec] at h
      rw [← h, ← h1]
      rfl

/-- C1: when Open succeeds and the validation of every included field passes,
`DefaultInsert` passes exactly one statement to the executor, and that
statement is built from a sublist `fs` of the fields whose AutoInc flag is
not set: its columns are the names of `fs`, it has one placeholder per field
of `fs`, and its arguments are the values resolved for the fields of `fs`.
A field with AutoInc set contributes no column, placeholder or argument. -/
theorem DefaultInsert_omits_autoInc (env : Env) (table t : Table) (db : DB) (record : Map)
    (hc : table.Consistent) (ho : table.Open = (t, none))
    (hv : ∀ before field after, t.Fields = before ++ field :: after →
      insertIncluded field = true →
      insertCheck env db t record (insertInit record) before field = none) :
    ∃ (out : Outcome) (fs : List Field),
      table.DefaultInsert env db record = some out ∧
      fs.Sublist (table.Fields.filter (fun f => !f.AutoInc)) ∧
      out.db.executed = db.executed ++
        [{ query := "INSERT INTO " ++ table.Name ++ "(" ++
             Join (fs.map (fun f => f.Name)) ", " ++ ")VALUES(" ++
             Join (fs.map (fun _ => "?")) ", " ++ ")",
           args := fs.map (fun f => insertValue f record) }] := by
  obtain ⟨hk, _, hf, hn, _⟩ := Open_ok table t hc ho
  refine ⟨_, table.Fields.filter insertIncluded, DefaultInsert_ok env table t db record ho hk hv,
    ?_, ?_⟩
  · apply List.monotone_filter_right
    intro f h
    cases ha : f.AutoInc <;> simp [insertIncluded, ha] at h ⊢
  · obtain ⟨h1, h2, h3⟩ := insertVars_lists record t.Fields (insertInit record)
    rw [hf] at h1 h2 h3
    simp only [insertInit, List.nil_append] at h1 h2 h3
    simp only [insertOutcome, insertInit, hf, hn, h1, h2, h3]
    simp [ColSepWide, Placeholder]

/-- Witness of C1 on the table `users`: the caller supplies a value for the
auto-increment column `id`, and the statement still has no column,
placeholder or argument for it. -/
theorem DefaultInsert_omits_autoInc_users :
    users.Consistent ∧ users.Open = (users.Open.1, none) ∧
    ∃ (out : Outcome) (fs : List Field),
      users.DefaultInsert acceptAll { executed := [] }
        [("id", Value.int 7), ("name", Value.str "a")] = some out ∧
      fs.Sublist (users.Fields.filter (fun f => !f.AutoInc)) ∧
      out.db.executed = [] ++
        [{ query := "INSERT INTO " ++ users.Name ++ "(" ++
             Join (fs.map (fun f => f.Name)) ", " ++ ")VALUES(" ++
             Join (fs.map (fun _ => "?")) ", " ++ ")",
           args := fs.map (fun f =>
             insertValue f [("id", Value.int 7), ("name", Value.str "a")]) }] :=
  ⟨by decide, by decide,
    DefaultInsert_omits_autoInc acceptAll users users.Open.1 { executed := [] }
      [("id", Value.int 7), ("name", Value.str "a")] (by decide) (by decide)
      (fun _ _ _ _ _ => rfl)⟩

/-- C2: when Open succeeds and the validation of every included field passes,
`DefaultInsert` executes exactly the text
`INSERT INTO <table>(<c1, c2, ...>)VALUES(<?, ?, ...>)`: the columns are the
names of the included fields in declaration order, joined by `", "`, there
are as many `?` as columns, and the i-th argument is the value resolved for
the i-th listed column. -/
theorem DefaultInsert_statement (env : Env) (table t : Table) (db : DB) (record : Map)
    (hc : table.Consistent) (ho : table.Open = (t, none))
    (hv : ∀ before field after, t.Fields = before ++ field :: after →
      insertIncluded field = true →
      insertCheck env db t record (insertInit record) before field = none) :
    ∃ out : Outcome,
      table.DefaultInsert env db record = some out ∧
      out.db.executed = db.executed ++
        [{ query := "INSERT INTO " ++ table.Name ++ "(" ++
             Join ((table.Fields.filter insertIncluded).map (fun f => f.Name)) ", " ++
             ")VALUES(" ++
             Join (List.replicate (table.Fields.filter insertIncluded).length "?") ", " ++ ")",
           args := (table.Fields.filter insertIncluded).map (fun f => insertValue f record) }] := by
  obtain ⟨hk, _, hf, hn, _⟩ := Open_ok table t hc ho
  refine ⟨_, DefaultInsert_ok env table t db record ho hk hv, ?_⟩
  obtain ⟨h1, h2, h3⟩ := insertVars_lists record t.Fields (insertInit record)
  rw [hf] at h1 h2 h3
  simp only [insertInit, List.nil_append] at h1 h2 h3
  simp only [insertOutcome, insertInit, hf, hn, h1, h2, h3]
  simp [ColSepWide, Placeholder, List.map_const']

/-- Witness of C2, the example of the specification: on `users`, the insert of
`{name: "a", email: "a@x.com"}` executes
`INSERT INTO users(name, email, created_at)VALUES(?, ?, ?)` with the two
supplied values and the output of the default provider of `created_at`. -/
theorem DefaultInsert_statement_users :
    users.Consistent ∧ users.Open = (users.Open.1, none) ∧
    ∃ out : Outcome,
      users.DefaultInsert acceptAll { executed := [] }
        [("name", Value.str "a"), ("email", Value.str "a@x.com")] = some out ∧
      out.db.executed =
        [{ query := "INSERT INTO users(name, email, created_at)VALUES(?, ?, ?)",
           args := [Value.str "a", Value.str "a@x.com", Value.str "2024-01-01 00:00:00"] }] := by
  obtain ⟨out, h1, h2⟩ := DefaultInsert_statement acceptAll users users.Open.1 { executed := [] }
      [("name", Value.str "a"), ("email", Value.str "a@x.com")] (by decide) (by decide)
      (fun _ _ _ _ _ => rfl)
  exact ⟨by decide, by decide, out, h1, h2.trans (by decide)⟩

/-! ## Update and Delete: outcomes of the default handlers -/

theorem DefaultUpdate_where_err (env : Env) (table : Table) (db : DB) (record : Map)
    (w : WhereOutcome) (e : Error)
    (hw : table.WherePrimaryKey record = some w) (he : w.err = some e) :
    table.DefaultUpdate env db record =
      some { table := w.table, db := db, result := none, err := some e } := by
  simp [Table.DefaultUpdate, hw, he]

theorem DefaultDelete_ok (env : Env) (table t : Table) (db : DB) (record : Map)
    (ho : table.Open = (t, none)) (hk : t.keys = t.Fields.map Field.GetKey)
    (hp : t.primaryKey = primaryKeyIndices 0 t.Fields)
    (hpk : pkFields t.Fields ≠ []) (hm : missingKey record t.Fields = none) :
    table.DefaultDelete env db record = some (deleteOutcome env t db record) := by
  simp [Table.DefaultDelete, WherePrimaryKey_ok table t record ho hk hp hpk hm, DB.Exec,
    deleteOutcome, whereQuery, whereArgs]

theorem DefaultUpdate_loop (env : Env) (table t : Table) (db : DB) (record : Map)
    (ho : table.Open = (t, none)) (hk : t.keys = t.Fields.map Field.GetKey)
    (hp : t.primaryKey = primaryKeyIndices 0 t.Fields)
    (hpk : pkFields t.Fields ≠ []) (hm : missingKey record t.Fields = none) :
    table.DefaultUpdate env db record =
      match updateLoop env db t record 0 t.Fields (updateInit record) with
      | none => none
      | some (Except.error err) =>
        some { table := t, db := db, result := none, err := some err }
      | some (Except.ok vars) =>
        if vars.sets.length = 0 then
          some { table := t, db := db, result := none,
                 err := some (notEnoughColumnsError t.Name) }
        else some (updateOutcome env t db record vars) := by
  simp only [Table.DefaultUpdate, WherePrimaryKey_ok table t record ho hk hp hpk hm]
  rw [← updateInit]
  cases updateLoop env db t record 0 t.Fields (updateInit record) with
  | none => rfl
  | some res =>
    cases res with
    | error e => rfl
    | ok vars =>
      by_cases hs : vars.sets.length = 0
      · simp [hs, notEnoughColumnsError]
      · simp [hs, DB.Exec, updateOutcome, whereQuery, whereArgs]

theorem DefaultUpdate_ok (env : Env) (table t : Table) (db : DB) (record : Map)
    (ho : table.Open = (t, none)) (hk : t.keys = t.Fields.map Field.GetKey)
    (hp : t.primaryKey = primaryKeyIndices 0 t.Fields)
    (hpk : pkFields t.Fields ≠ []) (hm : missingKey record t.Fields = none)
    (hv : ∀ q f r, t.Fields = q ++ f :: r → updateIncluded record f = true →
      updateCheck env db t record (updateInit record) q f = none) :
    table.DefaultUpdate env db record =
      if t.Fields.filter (updateIncluded record) = [] then
        some { table := t, db := db, result := none,
               err := some (notEnoughColumnsError t.Name) }
      else some (updateOutcome env t db record (updateVars record t.Fields (updateInit record))) := by
  have h := updateLoop_prefix env db t record hk t.Fields [] [] (updateInit record)
    (by simp) (by simpa using hv)
  simp only [List.append_nil, List.length_nil, Nat.zero_add] at h
  rw [DefaultUpdate_loop env table t db record ho hk hp hpk hm, h]
  have hl := (updateVars_lists record t.Fields (updateInit record)).1
  simp only [updateLoop]
  rw [hl]
  simp [updateInit]

theorem DefaultUpdate_inv (env : Env) (table : Table) (db : DB) (record : Map)
    (hc : table.Consistent) (out : Outcome) (r : Result)
    (h : table.DefaultUpdate env db record = some out) (hr : out.result = some r) :
    ∃ t, table.Open = (t, none) ∧ pkFields t.Fields ≠ [] ∧ missingKey record t.Fields = none ∧
      t.Fields.filter (updateIncluded record) ≠ [] ∧
      out = updateOutcome env t db record (updateVars record t.Fields (updateInit record)) ∧
      ∀ q f r, t.Fields = q ++ f :: r → updateIncluded record f = true →
        updateCheck env db t record (updateInit record) q f = none := by
  cases ho : table.Open with
  | mk t e =>
    cases e with
    | some e =>
      rw [DefaultUpdate_where_err env table db record _ e
        (WherePrimaryKey_fails table t record e ho) rfl] at h
      simp at h
      rw [← h] at hr
      simp at hr
    | none =>
      obtain ⟨hk, hp, hf, hn, _⟩ := Open_ok table t hc ho
      by_cases hpk : pkFields t.Fields = []
      · rw [DefaultUpdate_where_err env table db record _ _
          (WherePrimaryKey_noPK table t record ho hp hpk) rfl] at h
        simp at h
        rw [← h] at hr
        simp at hr
      · cases hm : missingKey record t.Fields with
        | some f =>
          obtain ⟨a, ha⟩ := WherePrimaryKey_missing table t record ho hk hp f hm
          rw [DefaultUpdate_where_err env table db record _ _ ha rfl] at h
          simp at h
          rw [← h] at hr
          simp at hr
        | none =>
          rw [DefaultUpdate_loop env table t db record ho hk hp hpk hm] at h
          cases hl : updateLoop env db t record 0 t.Fields (updateInit record) with
          | none => rw [hl] at h; simp at h
          | some res =>
            rw [hl] at h
            cases res with
            | error e =>
              simp at h
              rw [← h] at hr
              simp at hr
            | ok vars =>
              obtain ⟨h1, h2⟩ := updateLoop_inv env db t record hk t.Fields []
                (updateInit record) vars (by simp) (by simpa using hl)
              by_cases hs : vars.sets.length = 0
              · simp [hs] at h
                rw [← h] at hr
                simp at hr
              · simp [hs] at h
                refine ⟨t, rfl, hpk, hm, ?_, ?_, h2⟩
                · intro hnil
                  apply hs
                  rw [h1, (updateVars_lists record t.Fields (updateInit record)).1, hnil]
                  simp [updateInit]
                · rw [← h, h1]

theorem DefaultInsert_inv_open (env : Env) (table : Table) (db : DB) (record : Map)
    (hc : table.Consistent) (out : Outcome) (r : Result)
    (h : table.DefaultInsert env db record = some out) (hr : out.result = some r) :
    ∃ t, table.Open = (t, none) ∧
      out = insertOutcome env t db (insertVars record t.Fields (insertInit record)) := by
  cases ho : table.Open with
  | mk t e =>
    cases e with
    | some e =>
      simp [Table.DefaultInsert, ho] at h
      rw [← h] at hr
      simp at hr
    | none =>
      obtain ⟨hk, _⟩ := Open_ok table t hc ho
      exact ⟨t, rfl, (DefaultInsert_inv env table t db record ho hk out r h hr).1⟩

/-! ## Read-only fields -/

theorem fragment_eq (s : String) : s ++ " = " ++ Placeholder = s ++ " = ?" := by
  rw [String.append_assoc]
  rfl

/-- C3: in the statement `DefaultInsert` executes, a read-only field that is
not auto-increment has no column when it has no Default provider, and when it
has one its column is bound to the provider's output; in the statement
`DefaultUpdate` executes, a read-only field that is neither primary key nor
auto-increment has no SET fragment when it has no OnUpdate provider, and when
it has one its fragment is bound to the provider's output.  This holds for
every record, whatever it holds under the field's key. -/
theorem readOnly_fields (env : Env) (table : Table) (db : DB) (record : Map)
    (hc : table.Consistent) :
    (∀ out r, table.DefaultInsert env db record = some out → out.result = some r →
      ∃ (fs : List Field) (value : Field → Value),
        fs.Sublist table.Fields ∧
        out.db.executed = db.executed ++
          [{ query := "INSERT INTO " ++ table.Name ++ "(" ++
               Join (fs.map (fun f => f.Name)) ", " ++ ")VALUES(" ++
               Join (fs.map (fun _ => "?")) ", " ++ ")",
             args := fs.map value }] ∧
        ∀ f ∈ table.Fields, f.ReadOnly = true → f.AutoInc = false →
          (f.Default = Value.nil → f ∉ fs) ∧
          (f.Default ≠ Value.nil → f ∈ fs ∧ value f = f.GetDefault)) ∧
    (∀ out r, table.DefaultUpdate env db record = some out → out.result = some r →
      ∃ (fs : List Field) (value : Field → Value),
        fs.Sublist table.Fields ∧
        out.db.executed = db.executed ++
          [{ query := "UPDATE " ++ table.Name ++ " SET " ++
               Join (fs.map (fun f => f.Name ++ " = ?")) ", " ++ " WHERE " ++
               whereQuery table.Fields,
             args := fs.map value ++ whereArgs table.Fields record }] ∧
        ∀ f ∈ table.Fields, f.ReadOnly = true → f.AutoInc = false → f.PrimaryKey = false →
          (f.OnUpdate = Value.nil → f ∉ fs) ∧
          (f.OnUpdate ≠ Value.nil → f ∈ fs ∧ value f = f.GetOnUpdate)) := by
  constructor
  · intro out r h hr
    obtain ⟨t, ho, hout⟩ := DefaultInsert_inv_open env table db record hc out r h hr
    obtain ⟨_, _, hf, hn, _⟩ := Open_ok table t hc ho
    refine ⟨table.Fields.filter insertIncluded, fun f => insertValue f record,
      List.filter_sublist _, ?_, ?_⟩
    · obtain ⟨h1, h2, h3⟩ := insertVars_lists record t.Fields (insertInit record)
      rw [hf] at h1 h2 h3
      simp only [insertInit, List.nil_append] at h1 h2 h3
      rw [hout]
      simp only [insertOutcome, insertInit, hf, hn, h1, h2, h3]
      simp [ColSepWide, Placeholder]
    · intro f hmem hro hai
      refine ⟨?_, ?_⟩
      · intro hd
        simp [insertIncluded, hro, hd]
      · intro hd
        simp [insertIncluded, hro, hd, hai, hmem, insertValue]
  · intro out r h hr
    obtain ⟨t, ho, _, _, _, hout, _⟩ := DefaultUpdate_inv env table db record hc out r h hr
    obtain ⟨_, _, hf, hn, _⟩ := Open_ok table t hc ho
    refine ⟨table.Fields.filter (updateIncluded record), fun f => updateValue f record,
      List.filter_sublist _, ?_, ?_⟩
    · obtain ⟨h1, h2⟩ := updateVars_lists record t.Fields (updateInit record)
      rw [hf] at h1 h2
      simp only [updateInit, List.nil_append, fragment_eq] at h1 h2
      rw [hout]
      simp only [updateOutcome, updateInit, hf, hn, h1, h2, fragment_eq]
      simp [ColSepWide]
    · intro f hmem hro hai hpk
      refine ⟨?_, ?_⟩
      · intro hd
        simp [updateIncluded, hro, hd]
      · intro hd
        simp [updateIncluded, hro, hd, hai, hpk, hmem, updateValue]

/-- Witness of C3 on the table `audited` with a record that supplies a value
for every read-only field: both statements are executed, `secret` is in
neither, `created_at` is bound to its default on insert and absent from the
update, `updated_at` is bound to its providers' outputs. -/
theorem readOnly_fields_audited :
    audited.Consistent ∧
    (audited.DefaultInsert acceptAll { executed := [] } auditedRecord).map
        (fun o => (o.db.executed, o.result.isSome)) =
      some ([{ query := "INSERT INTO audited(name, created_at, updated_at)VALUES(?, ?, ?)",
               args := [Value.str "b", Value.str "t0", Value.str "t0"] }], true) ∧
    (audited.DefaultUpdate acceptAll { executed := [] } auditedRecord).map
        (fun o => (o.db.executed, o.result.isSome)) =
      some ([{ query := "UPDATE audited SET name = ?, updated_at = ? WHERE id = ?",
               args := [Value.str "b", Value.str "t1", Value.int 5] }], true) ∧
    ((∀ out r, audited.DefaultInsert acceptAll { executed := [] } auditedRecord = some out →
      out.result = some r →
      ∃ (fs : List Field) (value : Field → Value),
        fs.Sublist audited.Fields ∧
        out.db.executed = [] ++
          [{ query := "INSERT INTO " ++ audited.Name ++ "(" ++
               Join (fs.map (fun f => f.Name)) ", " ++ ")VALUES(" ++
               Join (fs.map (fun _ => "?")) ", " ++ ")",
             args := fs.map value }] ∧
        ∀ f ∈ audited.Fields, f.ReadOnly = true → f.AutoInc = false →
          (f.Default = Value.nil → f ∉ fs) ∧
          (f.Default ≠ Value.nil → f ∈ fs ∧ value f = f.GetDefault)) ∧
    (∀ out r, audited.DefaultUpdate acceptAll { executed := [] } auditedRecord = some out →
      out.result = some r →
      ∃ (fs : List Field) (value : Field → Value),
        fs.Sublist audited.Fields ∧
        out.db.executed = [] ++
          [{ query := "UPDATE " ++ audited.Name ++ " SET " ++
               Join (fs.map (fun f => f.Name ++ " = ?")) ", " ++ " WHERE " ++
               whereQuery audited.Fields,
             args := fs.map value ++ whereArgs audited.Fields auditedRecord }] ∧
        ∀ f ∈ audited.Fields, f.ReadOnly = true → f.AutoInc = false → f.PrimaryKey = false →
          (f.OnUpdate = Value.nil → f ∉ fs) ∧
          (f.OnUpdate ≠ Value.nil → f ∈ fs ∧ value f = f.GetOnUpdate))) :=
  ⟨by decide, by decide, by decide,
    readOnly_fields acceptAll audited { executed := [] } auditedRecord (by decide)⟩

/-! ## Primary-key clause: failures and success -/

theorem missingKey_none (record : Map) (fields : List Field)
    (hall : ∀ f ∈ pkFields fields, (Assoc.get? record f.GetKey).isSome = true) :
    missingKey record fields = none := by
  simp only [missingKey, List.find?_eq_none]
  intro f hf
  have := hall f hf
  cases hg : Assoc.get? record f.GetKey with
  | none => simp [hg] at this
  | some v => simp

/-- C6: when Open succeeds on a table with at least one primary-key field and
the record holds an entry under the key of every primary-key field,
`WherePrimaryKey` succeeds; its query is one fragment `<field name> = ?` per
primary-key field, in declaration order, joined by `" AND "`, and its i-th
argument is the record's value under the key of the i-th primary-key field. -/
theorem WherePrimaryKey_clause (table t : Table) (record : Map)
    (hc : table.Consistent) (ho : table.Open = (t, none))
    (hpk : pkFields table.Fields ≠ [])
    (hall : ∀ f ∈ pkFields table.Fields, (Assoc.get? record f.GetKey).isSome = true) :
    ∃ args : List Value,
      table.WherePrimaryKey record =
        some { table := t,
               query := Join ((pkFields table.Fields).map (fun f => f.Name ++ " = ?")) " AND ",
               args := args, err := none } ∧
      args.length = (pkFields table.Fields).length ∧
      args.map some = (pkFields table.Fields).map (fun f => Assoc.get? record f.GetKey) := by
  obtain ⟨hk, hp, hf, _⟩ := Open_ok table t hc ho
  rw [← hf] at hpk hall
  have hw := WherePrimaryKey_ok table t record ho hk hp hpk (missingKey_none record _ hall)
  simp only [fragment_eq, hf] at hw
  rw [hf] at hall
  refine ⟨_, hw, by simp, ?_⟩
  rw [List.map_map]
  apply List.map_congr_left
  intro f hfm
  have := hall f hfm
  cases hg : Assoc.get? record f.GetKey with
  | none => simp [hg] at this
  | some v => simp [Map.index, hg]

/-- Witness of C6 on `memberships`, whose primary key has two fields, the
second looked up under the key `user`. -/
theorem WherePrimaryKey_clause_memberships :
    memberships.Consistent ∧ memberships.Open = (memberships.Open.1, none) ∧
    memberships.WherePrimaryKey
        [("user", Value.int 2), ("role", Value.str "admin"), ("org_id", Value.int 1)] =
      some { table := memberships.Open.1, query := "org_id = ? AND user_id = ?",
             args := [Value.int 1, Value.int 2], err := none } := by
  obtain ⟨args, h1, _, h3⟩ := WherePrimaryKey_clause memberships memberships.Open.1
    [("user", Value.int 2), ("role", Value.str "admin"), ("org_id", Value.int 1)]
    (by decide) (by decide) (by decide) (by decide)
  have ha : args = [Value.int 1, Value.int 2] := by
    have h : args.map some = [some (Value.int 1), some (Value.int 2)] := h3.trans (by decide)
    match args, h with
    | [a, b], h => simpa using h
  subst ha
  exact ⟨by decide, by decide, h1.trans (by decide)⟩

/-! ## Update: the executed statement -/

/-- C7: whenever `DefaultUpdate` reaches execution, it executes exactly the
text `UPDATE <table> SET <c1 = ?, c2 = ?, ...> WHERE <pk clause>`: the SET
fragments are those of the included fields in declaration order, none of them
a primary-key or auto-increment field, the WHERE clause is the primary-key
clause, and the arguments are the SET values in that order followed by the
primary-key arguments, one argument per `?`. -/
theorem DefaultUpdate_statement (env : Env) (table : Table) (db : DB) (record : Map)
    (out : Outcome) (r : Result) (hc : table.Consistent)
    (h : table.DefaultUpdate env db record = some out) (hr : out.result = some r) :
    out.db.executed = db.executed ++
      [{ query := "UPDATE " ++ table.Name ++ " SET " ++
           Join ((table.Fields.filter (updateIncluded record)).map (fun f => f.Name ++ " = ?"))
             ", " ++
           " WHERE " ++
           Join ((pkFields table.Fields).map (fun f => f.Name ++ " = ?")) " AND ",
         args := (table.Fields.filter (updateIncluded record)).map
             (fun f => updateValue f record) ++
           (pkFields table.Fields).map (fun f => Map.index record f.GetKey) }] ∧
    (table.Fields.filter (updateIncluded record)).Sublist
      (table.Fields.filter (fun f => !f.PrimaryKey && !f.AutoInc)) ∧
    (∀ f ∈ pkFields table.Fields, (Assoc.get? record f.GetKey).isSome = true) := by
  obtain ⟨t, ho, _, hm, _, hout, _⟩ := DefaultUpdate_inv env table db record hc out r h hr
  obtain ⟨_, _, hf, hn, _⟩ := Open_ok table t hc ho
  refine ⟨?_, ?_, ?_⟩
  · obtain ⟨h1, h2⟩ := updateVars_lists record t.Fields (updateInit record)
    rw [hf] at h1 h2
    simp only [updateInit, List.nil_append, fragment_eq] at h1 h2
    rw [hout]
    simp only [updateOutcome, updateInit, hf, hn, h1, h2, whereQuery, whereArgs, fragment_eq]
    simp [ColSepWide]
  · apply List.monotone_filter_right
    intro f hi
    cases hp : f.PrimaryKey <;> cases ha : f.AutoInc <;> simp [updateIncluded, hp, ha] at hi ⊢
  · intro f hfm
    rw [hf] at hm
    simp only [missingKey, List.find?_eq_none] at hm
    have := hm f hfm
    cases hg : Assoc.get? record f.GetKey with
    | none => simp [hg] at this
    | some v => simp

/-- Witness of C7, the example of the specification: on `users`,
`Update({id: 5, name: "b"})` executes `UPDATE users SET name = ? WHERE id = ?`
with the arguments `["b", 5]`. -/
theorem DefaultUpdate_statement_users :
    users.Consistent ∧
    ∃ out r, users.DefaultUpdate acceptAll { executed := [] }
        [("id", Value.int 5), ("name", Value.str "b")] = some out ∧ out.result = some r ∧
      out.db.executed =
        [{ query := "UPDATE users SET name = ? WHERE id = ?",
           args := [Value.str "b", Value.int 5] }] := by
  have hex : ∃ out r, users.DefaultUpdate acceptAll { executed := [] }
      [("id", Value.int 5), ("name", Value.str "b")] = some out ∧ out.result = some r := by
    refine ⟨_, _, rfl, rfl⟩
  obtain ⟨out, r, h, hr⟩ := hex
  exact ⟨by decide, out, r, h, hr,
    (DefaultUpdate_statement acceptAll users { executed := [] }
      [("id", Value.int 5), ("name", Value.str "b")] out r (by decide) h hr).1.trans
      (by decide)⟩

/-- C8: for a record that holds an entry for every primary-key field of a
table with a primary key, when no field is included in the SET list
`DefaultUpdate` fails with `Table <name>: not enough columns to update`,
returns no result and passes no statement to the executor; and when at least
one field is included and every validation passes, it executes one UPDATE
statement and returns a result together with the executor's own error value,
so the guard's error is not raised. -/
theorem DefaultUpdate_not_enough (env : Env) (table t : Table) (db : DB) (record : Map)
    (hc : table.Consistent) (ho : table.Open = (t, none))
    (hpk : pkFields table.Fields ≠ [])
    (hall : ∀ f ∈ pkFields table.Fields, (Assoc.get? record f.GetKey).isSome = true) :
    (table.Fields.filter (updateIncluded record) = [] →
      table.DefaultUpdate env db record =
        some { table := t, db := db, result := none,
               err := some (Error.errorString
                 ("Table " ++ table.Name ++ ": not enough columns to update")) }) ∧
    (table.Fields.filter (updateIncluded record) ≠ [] →
      (∀ before field after, t.Fields = before ++ field :: after →
        updateIncluded record field = true →
        updateCheck env db t record (updateInit record) before field = none) →
      ∃ out r query args,
        table.DefaultUpdate env db record = some out ∧ out.result = some r ∧
        out.db.executed = db.executed ++ [{ query := query, args := args }] ∧
        out.err = (env.Exec db query args).2) := by
  obtain ⟨hk, hp, hf, hn, _⟩ := Open_ok table t hc ho
  rw [← hf] at hpk hall
  have hm := missingKey_none record _ hall
  constructor
  · intro hnil
    rw [← hf] at hnil
    have hv : ∀ q f r, t.Fields = q ++ f :: r → updateIncluded record f = true →
        updateCheck env db t record (updateInit record) q f = none := by
      intro q f r hs hi
      have : f ∈ t.Fields.filter (updateIncluded record) := by
        simp [hs, hi]
      rw [hnil] at this
      simp at this
    rw [DefaultUpdate_ok env table t db record ho hk hp hpk hm hv, if_pos hnil]
    simp [notEnoughColumnsError, hn]
  · intro hne hv
    rw [← hf] at hne
    refine ⟨updateOutcome env t db record (updateVars record t.Fields (updateInit record)),
      _, _, _, ?_, rfl, rfl, rfl⟩
    rw [DefaultUpdate_ok env table t db record ho hk hp hpk hm hv, if_neg hne]

/-- Witness of C8 on `users`: a record that holds only the primary key leaves
nothing to update, and one that also holds a name is executed. -/
theorem DefaultUpdate_not_enough_users :
    users.Consistent ∧ users.Open = (users.Open.1, none) ∧
    users.DefaultUpdate acceptAll { executed := [] } [("id", Value.int 5)] =
      some { table := users.Open.1, db := { executed := [] }, result := none,
             err := some (Error.errorString "Table users: not enough columns to update") } ∧
    ∃ out r query args,
      users.DefaultUpdate acceptAll { executed := [] }
        [("id", Value.int 5), ("name", Value.str "b")] = some out ∧ out.result = some r ∧
      out.db.executed = [] ++ [{ query := query, args := args }] ∧
      out.err = (acceptAll.Exec { executed := [] } query args).2 :=
  ⟨by decide, by decide,
    ((DefaultUpdate_not_enough acceptAll users users.Open.1 { executed := [] }
      [("id", Value.int 5)] (by decide) (by decide) (by decide) (by decide)).1
      (by decide)).trans (by decide),
    (DefaultUpdate_not_enough acceptAll users users.Open.1 { executed := [] }
      [("id", Value.int 5), ("name", Value.str "b")] (by decide) (by decide) (by decide)
      (by decide)).2 (by decide) (fun _ _ _ _ _ => rfl)⟩

/-! ## Validation failures -/

theorem insertCheck_append (env : Env) (db : DB) (t : Table) (record : Map) (vars : InsertVars)
    (q : List Field) (g : Field) :
    insertCheck env db t record vars q g =
      insertCheck env db t record (insertVars record q vars) [] g := by
  simp [insertCheck, insertVars, List.foldl_append]

theorem updateCheck_append (env : Env) (db : DB) (t : Table) (record : Map) (vars : UpdateVars)
    (q : List Field) (g : Field) :
    updateCheck env db t record vars q g =
      updateCheck env db t record (updateVars record q vars) [] g := by
  simp [updateCheck, updateVars, List.foldl_append]

theorem DefaultInsert_fail (env : Env) (table t : Table) (db : DB) (record : Map)
    (before after : List Field) (field : Field) (e : Error)
    (ho : table.Open = (t, none)) (hk : t.keys = t.Fields.map Field.GetKey)
    (hs : t.Fields = before ++ field :: after) (hi : insertIncluded field = true)
    (hpass : ∀ q g r, before = q ++ g :: r → insertIncluded g = true →
      insertCheck env db t record (insertInit record) q g = none)
    (hfail : insertCheck env db t record (insertInit record) before field = some e) :
    table.DefaultInsert env db record =
      some { table := t, db := db, result := none, err := some e } := by
  have h := insertLoop_prefix env db t record hk before [] (field :: after) (insertInit record)
    (by simpa using hs) hpass
  simp only [List.length_nil, Nat.zero_add] at h
  have hkey := (keys_at t hk before after field hs).1
  rw [insertLoop_step env db t record _ field after _ hkey hi,
    ← insertCheck_append, hfail] at h
  simp only [Table.DefaultInsert, ho]
  rw [← insertInit, hs, h]

theorem DefaultUpdate_fail (env : Env) (table t : Table) (db : DB) (record : Map)
    (before after : List Field) (field : Field) (e : Error)
    (ho : table.Open = (t, none)) (hk : t.keys = t.Fields.map Field.GetKey)
    (hp : t.primaryKey = primaryKeyIndices 0 t.Fields)
    (hpk : pkFields t.Fields ≠ []) (hm : missingKey record t.Fields = none)
    (hs : t.Fields = before ++ field :: after) (hi : updateIncluded record field = true)
    (hpass : ∀ q g r, before = q ++ g :: r → updateIncluded record g = true →
      updateCheck env db t record (updateInit record) q g = none)
    (hfail : updateCheck env db t record (updateInit record) before field = some e) :
    table.DefaultUpdate env db record =
      some { table := t, db := db, result := none, err := some e } := by
  have h := updateLoop_prefix env db t record hk before [] (field :: after) (updateInit record)
    (by simpa using hs) hpass
  simp only [List.length_nil, Nat.zero_add] at h
  have hkey := (keys_at t hk before after field hs).1
  rw [updateLoop_step env db t record _ field after _ hkey hi,
    ← updateCheck_append, hfail] at h
  rw [DefaultUpdate_loop env table t db record ho hk hp hpk hm]
  have h' : updateLoop env db t record 0 t.Fields (updateInit record) =
      some (Except.error e) := by
    rw [hs]; exact h
  rw [h']

theorem validateField_raw (env : Env) (c : Context) (value : Value) (raw : Error)
    (h : env.Validate c value c.Field.Validations = some raw) :
    ∃ e, validateField env c value = some e ∧
      (∀ code message, raw = Error.validationError code message →
        e = Error.validationError code (c.Field.GetTitle ++ ": " ++ message)) ∧
      (∀ msg, raw = Error.errorString msg → e = raw) := by
  cases raw with
  | errorString msg =>
    refine ⟨Error.errorString msg, by simp [validateField, h], ?_, ?_⟩
    · intro code message hr; cases hr
    · intro _ _; rfl
  | validationError code message =>
    refine ⟨Error.validationError code (c.Field.GetTitle ++ ": " ++ message),
      by simp [validateField, h, Error.SetMessage, ValidationErrorFormat, Error.text], ?_, ?_⟩
    · intro code' message' hr
      cases hr
      rfl
    · intro _ hr; cases hr

/-- C9: when, during `DefaultInsert` or `DefaultUpdate`, the validations of
the included fields before `field` pass and the validation of the included
field `field` fails with the library error `raw`, the operation returns an
error for `field`, returns no result and passes no statement to the executor.
A structured validation error comes back with the message
`<field title>: <original message>`, any other error unchanged.  The outcome is
the same in every environment whose validations of the fields up to `field`
agree, whatever its rules answer for later fields: those are not consulted. -/
theorem validation_fails_fast (env : Env) (table t : Table) (db : DB) (record : Map)
    (before after : List Field) (field : Field) (raw : Error)
    (hc : table.Consistent) (ho : table.Open = (t, none))
    (hs : t.Fields = before ++ field :: after) :
    (insertIncluded field = true →
      (∀ q g r, before = q ++ g :: r → insertIncluded g = true →
        insertCheck env db t record (insertInit record) q g = none) →
      env.Validate
        { State := State.StateInsert, DB := db, Table := t,
          Record := (insertVars record (before ++ [field]) (insertInit record)).recMap,
          Field := field }
        (insertValue field record) field.Validations = some raw →
      ∃ e, table.DefaultInsert env db record =
          some { table := t, db := db, result := none, err := some e } ∧
        (∀ code message, raw = Error.validationError code message →
          e = Error.validationError code (field.GetTitle ++ ": " ++ message)) ∧
        (∀ msg, raw = Error.errorString msg → e = raw) ∧
        ∀ env' : Env,
          (∀ q g r, before ++ [field] = q ++ g :: r → insertIncluded g = true →
            insertCheck env' db t record (insertInit record) q g =
              insertCheck env db t record (insertInit record) q g) →
          table.DefaultInsert env' db record = table.DefaultInsert env db record) ∧
    (pkFields table.Fields ≠ [] →
      (∀ f ∈ pkFields table.Fields, (Assoc.get? record f.GetKey).isSome = true) →
      updateIncluded record field = true →
      (∀ q g r, before = q ++ g :: r → updateIncluded record g = true →
        updateCheck env db t record (updateInit record) q g = none) →
      env.Validate
        { State := State.StateUpdate, DB := db, Table := t,
          Record := (updateVars record (before ++ [field]) (updateInit record)).recMap,
          Field := field }
        (updateValue field record) field.Validations = some raw →
      ∃ e, table.DefaultUpdate env db record =
          some { table := t, db := db, result := none, err := some e } ∧
        (∀ code message, raw = Error.validationError code message →
          e = Error.validationError code (field.GetTitle ++ ": " ++ message)) ∧
        (∀ msg, raw = Error.errorString msg → e = raw) ∧
        ∀ env' : Env,
          (∀ q g r, before ++ [field] = q ++ g :: r → updateIncluded record g = true →
            updateCheck env' db t record (updateInit record) q g =
              updateCheck env db t record (updateInit record) q g) →
          table.DefaultUpdate env' db record = table.DefaultUpdate env db record) := by
  obtain ⟨hk, hp, hf, hn, _⟩ := Open_ok table t hc ho
  constructor
  · intro hi hpass hraw
    obtain ⟨e, he, h1, h2⟩ := validateField_raw env _ _ raw hraw
    have hfail : insertCheck env db t record (insertInit record) before field = some e := he
    have hres := DefaultInsert_fail env table t db record before after field e ho hk hs hi
      hpass hfail
    refine ⟨e, hres, h1, h2, ?_⟩
    intro env' hagree
    rw [hres]
    apply DefaultInsert_fail env' table t db record before after field e ho hk hs hi
    · intro q g r hq hg
      rw [hagree q g (r ++ [field]) (by simp [hq]) hg]
      exact hpass q g r hq hg
    · rw [hagree before field [] rfl hi]
      exact hfail
  · intro hpk hall hi hpass hraw
    rw [← hf] at hpk hall
    have hm := missingKey_none record _ hall
    obtain ⟨e, he, h1, h2⟩ := validateField_raw env _ _ raw hraw
    have hfail : updateCheck env db t record (updateInit record) before field = some e := he
    have hres := DefaultUpdate_fail env table t db record before after field e ho hk hp hpk hm
      hs hi hpass hfail
    refine ⟨e, hres, h1, h2, ?_⟩
    intro env' hagree
    rw [hres]
    apply DefaultUpdate_fail env' table t db record before after field e ho hk hp hpk hm hs hi
    · intro q g r hq hg
      rw [hagree q g (r ++ [field]) (by simp [hq]) hg]
      exact hpass q g r hq hg
    · rw [hagree before field [] rfl hi]
      exact hfail

/-- Witness of C9 on `accounts`: neither `name` nor `email` has a value, and
both operations return the error of `name`, qualified by its title, without
executing anything. -/
theorem validation_fails_fast_accounts :
    accounts.Consistent ∧ accounts.Open = (accounts.Open.1, none) ∧
    accounts.DefaultInsert strictEnv { executed := [] } [("id", Value.int 1)] =
      some { table := accounts.Open.1, db := { executed := [] }, result := none,
             err := some (Error.validationError "validation_required"
               "Name: cannot be blank") } ∧
    accounts.DefaultUpdate strictEnv { executed := [] }
        [("id", Value.int 1), ("name", Value.nil), ("email", Value.nil)] =
      some { table := accounts.Open.1, db := { executed := [] }, result := none,
             err := some (Error.validationError "validation_required"
               "Name: cannot be blank") } := by
  have hI := (validation_fails_fast strictEnv accounts accounts.Open.1 { executed := [] }
    [("id", Value.int 1)]
    [{ column "id" with PrimaryKey := true, AutoInc := true }]
    [{ column "email" with Validations := [{ id := "required" }] }]
    { column "name" with Title := "Name", Validations := [{ id := "required" }] }
    (Error.validationError "validation_required" "cannot be blank")
    (by decide) (by decide) (by decide)).1 (by decide)
    (by
      intro q g r h hi
      cases q with
      | nil =>
        simp at h
        rw [← h.1] at hi
        exact absurd hi (by decide)
      | cons a q' => simp at h)
    (by decide)
  have hU := (validation_fails_fast strictEnv accounts accounts.Open.1 { executed := [] }
    [("id", Value.int 1), ("name", Value.nil), ("email", Value.nil)]
    [{ column "id" with PrimaryKey := true, AutoInc := true }]
    [{ column "email" with Validations := [{ id := "required" }] }]
    { column "name" with Title := "Name", Validations := [{ id := "required" }] }
    (Error.validationError "validation_required" "cannot be blank")
    (by decide) (by decide) (by decide)).2 (by decide) (by decide) (by decide)
    (by
      intro q g r h hi
      cases q with
      | nil =>
        simp at h
        rw [← h.1] at hi
        exact absurd hi (by decide)
      | cons a q' => simp at h)
    (by decide)
  obtain ⟨e, hres, h1, _, _⟩ := hI
  obtain ⟨e', hres', h1', _, _⟩ := hU
  have he := h1 _ _ rfl
  have he' := h1' _ _ rfl
  subst he
  subst he'
  exact ⟨by decide, by decide, hres.trans (by decide), hres'.trans (by decide)⟩

/-! ## Open and Close -/

theorem cleared_eq (a b : Table) (h1 : a.active = b.active) (h2 : a.Name = b.Name)
    (h3 : a.Fields = b.Fields) (h4 : a.OnInsert = b.OnInsert) (h5 : a.OnUpdate = b.OnUpdate)
    (h6 : a.OnDelete = b.OnDelete) : a.cleared = b.cleared := by
  cases a
  cases b
  simp only [Table.cleared] at *
  simp [h1, h2, h3, h4, h5, h6]

theorem Open_Open (table : Table) : table.Open.1.Open = table.Open := by
  cases ha : table.active with
  | true =>
    rw [Open_active table ha]
    exact Open_active table ha
  | false =>
    rw [Open_inactive table ha]
    by_cases hb : TrimSpace table.Name = ""
    · simp only [hb, if_true]
      rw [Open_inactive table ha]
      simp [hb]
    · simp only [hb, if_false]
      have hfr := openLoop_frame table.Fields table.cleared 0
      cases hl : openLoop table.cleared 0 table.Fields with
      | mk t1 e =>
        rw [hl] at hfr
        obtain ⟨f1, f2, f3, f4, f5, f6⟩ := hfr
        simp only [Table.cleared] at f1 f2 f3 f4 f5 f6
        cases e with
        | some err =>
          simp only
          rw [Open_inactive t1 (by rw [f3, ha])]
          have hc : t1.cleared = table.cleared :=
            cleared_eq t1 table (by rw [f3, ha]) f1 f2 f4 f5 f6
          rw [f1, f2, hc, hl]
          simp [hb]
        | none =>
          simp only
          exact Open_active _ rfl

theorem Close_Open (table : Table) (hb : TrimSpace table.Name ≠ "") :
    table.Close.Open =
      (Table.declare table.Name table.Fields table.OnInsert table.OnUpdate table.OnDelete).Open := by
  rw [Open_inactive table.Close rfl, Open_inactive (Table.declare _ _ _ _ _) rfl]
  have hc : table.Close.cleared =
      (Table.declare table.Name table.Fields table.OnInsert table.OnUpdate
        table.OnDelete).cleared :=
    cleared_eq _ _ rfl rfl rfl rfl rfl rfl
  rw [hc]
  have hn : TrimSpace table.Close.Name ≠ "" := hb
  have hn' : TrimSpace (Table.declare table.Name table.Fields table.OnInsert table.OnUpdate
      table.OnDelete).Name ≠ "" := hb
  rw [if_neg hn, if_neg hn']
  rfl

/-- C10, as the code has it: a second Open right after an Open returns the
same error value and leaves the table, derived state included, as the first
Open left it; and when the Name is not blank, Close followed by Open leaves
the table and returns the error value that the first Open of a freshly
declared table with the same Name, Fields and handlers does, whatever the
derived state was before.  With a blank Name, Open fails before it resets
anything and the derived state stays as it was before Close. -/
theorem Open_idempotent (table : Table) :
    table.Open.1.Open = table.Open ∧
    (TrimSpace table.Name ≠ "" →
      table.Close.Open =
        (Table.declare table.Name table.Fields table.OnInsert table.OnUpdate
          table.OnDelete).Open) ∧
    (TrimSpace table.Name = "" →
      table.Close.Open =
        (table.Close, some (Error.errorString "Table name cannot be empty"))) := by
  refine ⟨Open_Open table, Close_Open table, ?_⟩
  intro hb
  rw [Open_inactive table.Close rfl]
  have : TrimSpace table.Close.Name = "" := hb
  simp [this]

/-- Witness of the amended C10 on `users`, opened and then closed. -/
theorem Open_idempotent_users :
    TrimSpace users.Open.1.Name ≠ "" ∧
    users.Open.1.Open.1.Open = users.Open.1.Open ∧
    users.Open.1.Close.Open =
      (Table.declare users.Open.1.Name users.Open.1.Fields users.Open.1.OnInsert
        users.Open.1.OnUpdate users.Open.1.OnDelete).Open :=
  ⟨by decide, (Open_idempotent users.Open.1).1, (Open_idempotent users.Open.1).2.1 (by decide)⟩

/-- Counterexample to C10 as stated: the table `users` was opened and its Name
then set to blank.  Close followed by Open fails and keeps the column list,
keys and primary-key indices of the earlier Open, whereas the first Open of a
fresh table with the same Name and Fields fails with empty derived state. -/
theorem Open_idempotent_counterexample :
    usersRenamedBlank.Close.Open.1.cols = "id, name, email, created_at" ∧
    usersRenamedBlank.Close.Open.1.keys = ["id", "name", "email", "created_at"] ∧
    usersRenamedBlank.Close.Open.1.primaryKey = [0] ∧
    (Table.declare usersRenamedBlank.Name usersRenamedBlank.Fields none none none).Open.1.cols
      = "" ∧
    (Table.declare usersRenamedBlank.Name usersRenamedBlank.Fields none none none).Open.1.keys
      = [] ∧
    (Table.declare usersRenamedBlank.Name usersRenamedBlank.Fields none none
      none).Open.1.primaryKey = [] ∧
    usersRenamedBlank.Close.Open.1 ≠
      (Table.declare usersRenamedBlank.Name usersRenamedBlank.Fields usersRenamedBlank.OnInsert
        usersRenamedBlank.OnUpdate usersRenamedBlank.OnDelete).Open.1 := by
  decide

theorem string_eq_empty (s : String) (h : s.length = 0) : s = "" := by
  cases s with
  | mk data =>
    simp [String.length] at h
    subst h
    rfl

theorem append_ne_empty (a b : String) (h : b ≠ "") : a ++ b ≠ "" := by
  intro h2
  apply h
  have := congrArg String.length h2
  simp at this
  exact string_eq_empty b this.2

theorem nonblank_ne_empty (s : String) (h : TrimSpace s ≠ "") : s ≠ "" := by
  intro he
  apply h
  rw [he]
  decide

theorem openLoop_blank (t : Table) (i : Nat) (f : Field) (rest : List Field)
    (hb : TrimSpace f.Name = "") :
    openLoop t i (f :: rest) = (t, some (blankFieldError i)) := by
  simp [openLoop, hb, blankFieldError]

theorem openLoop_prefix : ∀ (p : List Field) (t : Table) (i : Nat) (rest : List Field),
    (∀ f ∈ p, TrimSpace f.Name ≠ "") →
    openLoop t i (p ++ rest) = openLoop (openRounds t i p) (i + p.length) rest := by
  intro p
  induction p with
  | nil => intro t i rest _; simp [openRounds]
  | cons f p' ih =>
    intro t i rest h
    have hf : ¬ TrimSpace f.Name = "" := h f (by simp)
    have := ih (openStep t i f) (i + 1) rest (fun g hg => h g (by simp [hg]))
    rw [List.cons_append, openLoop]
    simp only [hf, if_false]
    rw [openRounds, List.length_cons, show i + (p'.length + 1) = i + 1 + p'.length by omega,
      ← this]
    rfl

theorem openRounds_frame : ∀ (p : List Field) (t : Table) (i : Nat),
    (openRounds t i p).Name = t.Name ∧ (openRounds t i p).Fields = t.Fields ∧
    (openRounds t i p).active = t.active ∧ (openRounds t i p).OnInsert = t.OnInsert ∧
    (openRounds t i p).OnUpdate = t.OnUpdate ∧ (openRounds t i p).OnDelete = t.OnDelete := by
  intro p
  induction p with
  | nil => intro t i; simp [openRounds]
  | cons f p' ih =>
    intro t i
    rw [openRounds]
    exact ih (openStep t i f) (i + 1)

theorem openRounds_keys : ∀ (p : List Field) (t : Table) (i : Nat),
    (openRounds t i p).keys = t.keys ++ p.map Field.GetKey ∧
    (openRounds t i p).primaryKey = t.primaryKey ++ primaryKeyIndices i p ∧
    (openRounds t i p).keysMap = p.foldl (fun m f => Assoc.set m f.Name f.GetKey) t.keysMap := by
  intro p
  induction p with
  | nil => intro t i; simp [openRounds, primaryKeyIndices]
  | cons f p' ih =>
    intro t i
    rw [openRounds]
    obtain ⟨h1, h2, h3⟩ := ih (openStep t i f) (i + 1)
    refine ⟨?_, ?_, ?_⟩
    · rw [h1]; simp [openStep]
    · rw [h2]
      by_cases hp : f.PrimaryKey = true <;> simp [openStep, hp, primaryKeyIndices]
    · rw [h3]; simp [openStep]

theorem openRounds_autoInc : ∀ (p : List Field) (t : Table) (i : Nat),
    (t.autoInc = -1 → (openRounds t i p).autoInc = firstAutoInc i p) ∧
    (0 ≤ t.autoInc → (openRounds t i p).autoInc = t.autoInc) := by
  intro p
  induction p with
  | nil => intro t i; simp [openRounds, firstAutoInc]
  | cons f p' ih =>
    intro t i
    rw [openRounds]
    obtain ⟨h1, h2⟩ := ih (openStep t i f) (i + 1)
    constructor
    · intro hn
      by_cases ha : f.AutoInc = true
      · have hs : (openStep t i f).autoInc = (i : Int) := by simp [openStep, hn, ha]
        rw [h2 (by rw [hs]; omega), hs]
        simp [firstAutoInc, ha]
      · have hs : (openStep t i f).autoInc = -1 := by simp [openStep, hn, ha]
        rw [h1 hs]
        simp [firstAutoInc, ha]
    · intro hn
      have hs : (openStep t i f).autoInc = t.autoInc := by
        have : ¬ t.autoInc < 0 := by omega
        simp [openStep, this]
      rw [h2 (by rw [hs]; exact hn), hs]

theorem append_ne_empty_left (a b : String) (h : a ≠ "") : a ++ b ≠ "" := by
  intro h2
  apply h
  have := congrArg String.length h2
  simp at this
  exact string_eq_empty a this.1

theorem openRounds_cols_go : ∀ (p : List Field) (t : Table) (i : Nat), t.cols ≠ "" →
    (openRounds t i p).cols = String.intercalate.go t.cols ", " (p.map (fun f => f.Name)) := by
  intro p
  induction p with
  | nil => intro t i _; simp [openRounds, String.intercalate.go]
  | cons f p' ih =>
    intro t i hc
    rw [openRounds]
    have hs : (openStep t i f).cols = t.cols ++ ", " ++ f.Name := by
      simp [openStep, hc, ColSepWide]
    rw [ih (openStep t i f) (i + 1) (by
      rw [hs]
      exact append_ne_empty_left _ _ (append_ne_empty_left _ _ hc)), hs]
    simp [String.intercalate.go]

theorem openRounds_cols (p : List Field) (t : Table) (i : Nat) (hc : t.cols = "")
    (hn : ∀ f ∈ p, TrimSpace f.Name ≠ "") :
    (openRounds t i p).cols = Join (p.map (fun f => f.Name)) ", " := by
  cases p with
  | nil => simp [openRounds, hc, Join, String.intercalate]
  | cons f p' =>
    rw [openRounds]
    have hs : (openStep t i f).cols = f.Name := by
      simp [openStep, hc]
    rw [openRounds_cols_go p' _ _ (by
      rw [hs]
      exact nonblank_ne_empty _ (hn f (by simp))), hs]
    simp [Join, String.intercalate]

theorem openRounds_cols_ne : ∀ (p : List Field) (t : Table) (i : Nat), t.cols ≠ "" →
    (openRounds t i p).cols ≠ "" := by
  intro p
  induction p with
  | nil => intro t i h; simpa [openRounds] using h
  | cons g p' ih =>
    intro t i h
    rw [openRounds]
    apply ih
    have : (openStep t i g).cols = t.cols ++ ColSepWide ++ g.Name := by
      simp [openStep, h]
    rw [this]
    exact append_ne_empty_left _ _ (append_ne_empty_left _ _ h)

theorem openRounds_cols_empty (p : List Field) (t : Table) (i : Nat) (hc : t.cols = "")
    (hn : ∀ f ∈ p, TrimSpace f.Name ≠ "") :
    (openRounds t i p).cols = "" ↔ p = [] := by
  cases p with
  | nil => simp [openRounds, hc]
  | cons f p' =>
    simp only [reduceCtorEq, iff_false]
    rw [openRounds]
    apply openRounds_cols_ne
    have hs : (openStep t i f).cols = f.Name := by
      simp [openStep, hc]
    rw [hs]
    exact nonblank_ne_empty _ (hn f (by simp))

theorem Open_inactive_blank_field (table : Table) (before after : List Field) (f : Field)
    (ha : table.active = false) (hn : TrimSpace table.Name ≠ "")
    (hs : table.Fields = before ++ f :: after)
    (hb : ∀ g ∈ before, TrimSpace g.Name ≠ "") (hf : TrimSpace f.Name = "") :
    table.Open = (openRounds table.cleared 0 before, some (blankFieldError before.length)) := by
  rw [Open_inactive table ha, if_neg hn, hs, openLoop_prefix before _ 0 _ hb,
    openLoop_blank _ _ f after hf]
  simp

theorem Open_inactive_all (table : Table)
    (ha : table.active = false) (hn : TrimSpace table.Name ≠ "")
    (hb : ∀ g ∈ table.Fields, TrimSpace g.Name ≠ "") :
    table.Open =
      ({ openRounds table.cleared 0 table.Fields with
          cols := if (openRounds table.cleared 0 table.Fields).cols = "" then "*"
            else (openRounds table.cleared 0 table.Fields).cols,
          active := true }, none) := by
  have h := openLoop_prefix table.Fields table.cleared 0 [] hb
  rw [List.append_nil] at h
  rw [Open_inactive table ha, if_neg hn, h]
  simp [openLoop]

theorem first_blank : ∀ (fields : List Field), (∃ f ∈ fields, TrimSpace f.Name = "") →
    ∃ before f after, fields = before ++ f :: after ∧
      (∀ g ∈ before, TrimSpace g.Name ≠ "") ∧ TrimSpace f.Name = "" := by
  intro fields
  induction fields with
  | nil => intro h; simp at h
  | cons a rest ih =>
    intro h
    by_cases ha : TrimSpace a.Name = ""
    · exact ⟨[], a, rest, by simp, by simp, ha⟩
    · obtain ⟨f, hf, hb⟩ := h
      have hf' : f ∈ rest := by
        rcases List.mem_cons.mp hf with h1 | h1
        · rw [h1] at hb; exact absurd hb ha
        · exact h1
      obtain ⟨before, g, after, h1, h2, h3⟩ := ih ⟨f, hf', hb⟩
      refine ⟨a :: before, g, after, by simp [h1], ?_, h3⟩
      intro x hx
      rcases List.mem_cons.mp hx with h4 | h4
      · rw [h4]; exact ha
      · exact h2 x h4

theorem TrimSpace_eq_empty (s : String) :
    TrimSpace s = "" ↔ ∀ c ∈ s.toList, isSpace c = true := by
  have key : ∀ l : List Char,
      ((l.dropWhile isSpace).reverse.dropWhile isSpace).reverse = [] ↔
        ∀ c ∈ l, isSpace c = true := by
    intro l
    rw [List.reverse_eq_nil_iff, List.dropWhile_eq_nil_iff]
    constructor
    · intro h
      have h2 : l.dropWhile isSpace = [] := by
        cases hd : l.dropWhile isSpace with
        | nil => rfl
        | cons x xs =>
          have hx : isSpace x = false := by
            have := List.head_dropWhile_not isSpace l (by rw [hd]; simp)
            simpa [hd] using this
          have := h x (by rw [hd]; simp)
          rw [hx] at this
          exact absurd this (by simp)
      exact List.dropWhile_eq_nil_iff.mp h2
    · intro h
      have h2 : l.dropWhile isSpace = [] := List.dropWhile_eq_nil_iff.mpr h
      rw [h2]
      simp
  unfold TrimSpace
  constructor
  · intro h
    apply (key s.toList).mp
    have := congrArg String.data h
    simpa using this
  · intro h
    rw [(key s.toList).mpr h]

theorem Open_inactive_fails (table : Table) (ha : table.active = false) :
    table.Open.2 ≠ none ↔
      TrimSpace table.Name = "" ∨ ∃ f ∈ table.Fields, TrimSpace f.Name = "" := by
  constructor
  · intro h
    by_cases hn : TrimSpace table.Name = ""
    · exact Or.inl hn
    · right
      by_contra hno
      apply h
      rw [Open_inactive_all table ha hn (by
        intro g hg hgb
        exact hno ⟨g, hg, hgb⟩)]
  · intro h
    by_cases hn : TrimSpace table.Name = ""
    · rw [Open_inactive table ha, if_pos hn]; simp
    · rcases h with h | h
      · exact absurd h hn
      · obtain ⟨before, f, after, hs, hb, hf⟩ := first_blank table.Fields h
        rw [Open_inactive_blank_field table before after f ha hn hs hb hf]
        simp

/-- C12: an inactive table's Open fails exactly when the table name is blank
or some field name is blank; with a blank table name the error is
`Table name cannot be empty`, and with a non-blank one the error is
`Fields[i]: name cannot be empty`, `i` being the smallest index of a field
with a blank name; Open of an active table succeeds and changes nothing.
Blank means that every character is white space, the empty name included. -/
theorem Open_fails_iff (table : Table) :
    (table.active = false →
      ((table.Open.2 ≠ none ↔
          TrimSpace table.Name = "" ∨ ∃ f ∈ table.Fields, TrimSpace f.Name = "") ∧
       (TrimSpace table.Name = "" →
          table.Open.2 = some (Error.errorString "Table name cannot be empty")) ∧
       (TrimSpace table.Name ≠ "" →
          ∀ before f after, table.Fields = before ++ f :: after →
            (∀ g ∈ before, TrimSpace g.Name ≠ "") → TrimSpace f.Name = "" →
            table.Open.2 = some (Error.errorString
              ("Fields[" ++ toString before.length ++ "]: name cannot be empty"))))) ∧
    (table.active = true → table.Open = (table, none)) ∧
    (∀ s : String, TrimSpace s = "" ↔ ∀ c ∈ s.toList, isSpace c = true) := by
  refine ⟨?_, Open_active table, TrimSpace_eq_empty⟩
  intro ha
  have hblank : TrimSpace table.Name = "" →
      table.Open.2 = some (Error.errorString "Table name cannot be empty") := by
    intro hn
    rw [Open_inactive table ha, if_pos hn]
  have hfield : TrimSpace table.Name ≠ "" →
      ∀ before f after, table.Fields = before ++ f :: after →
        (∀ g ∈ before, TrimSpace g.Name ≠ "") → TrimSpace f.Name = "" →
        table.Open.2 = some (Error.errorString
          ("Fields[" ++ toString before.length ++ "]: name cannot be empty")) := by
    intro hn before f after hs hb hf
    rw [Open_inactive_blank_field table before after f ha hn hs hb hf]
    rfl
  refine ⟨?_, hblank, hfield⟩
  constructor
  · intro h
    by_cases hn : TrimSpace table.Name = ""
    · exact Or.inl hn
    · right
      by_contra hno
      apply h
      rw [Open_inactive_all table ha hn (by
        intro g hg hgb
        exact hno ⟨g, hg, hgb⟩)]
  · intro h
    by_cases hn : TrimSpace table.Name = ""
    · rw [hblank hn]; simp
    · rcases h with h | h
      · exact absurd h hn
      · obtain ⟨before, f, after, hs, hb, hf⟩ := first_blank table.Fields h
        rw [hfield hn before f after hs hb hf]
        simp

/-- Witness of C12: the table `users` with its third field name blanked
fails with the error of index 2, and `users` itself opens. -/
theorem Open_fails_iff_witness :
    ({ users with Fields := [column "id", column "name", column " \t", column ""] }).Open.2 =
      some (Error.errorString "Fields[2]: name cannot be empty") ∧
    users.Open.2 = none ∧ users.Open.1.Open = (users.Open.1, none) :=
  ⟨((Open_fails_iff
      { users with Fields := [column "id", column "name", column " \t", column ""] }).1
      rfl).2.2 (by decide) [column "id", column "name"] (column " \t") [column ""] rfl
      (by decide) (by decide),
    by decide, (Open_fails_iff users.Open.1).2.1 (by decide)⟩

theorem Open_inactive_derived (table t : Table) (ha : table.active = false)
    (ho : table.Open = (t, none)) :
    t.active = true ∧
    t.cols = (if table.Fields = [] then "*"
      else Join (table.Fields.map (fun f => f.Name)) ", ") ∧
    t.keys = table.Fields.map Field.GetKey ∧
    t.keysMap = keysMapOf table.Fields ∧
    t.primaryKey = primaryKeyIndices 0 table.Fields ∧
    t.autoInc = firstAutoInc 0 table.Fields ∧
    t.Name = table.Name ∧ t.Fields = table.Fields := by
  have hfail := Open_inactive_fails table ha
  have hn : TrimSpace table.Name ≠ "" := by
    intro h
    have := hfail.mpr (Or.inl h)
    rw [ho] at this
    exact this rfl
  have hb : ∀ g ∈ table.Fields, TrimSpace g.Name ≠ "" := by
    intro g hg h
    have := hfail.mpr (Or.inr ⟨g, hg, h⟩)
    rw [ho] at this
    exact this rfl
  rw [Open_inactive_all table ha hn hb] at ho
  simp only [Prod.mk.injEq, and_true] at ho
  obtain ⟨f1, f2, _⟩ := openRounds_frame table.Fields table.cleared 0
  obtain ⟨k1, k2, k3⟩ := openRounds_keys table.Fields table.cleared 0
  have k4 := (openRounds_autoInc table.Fields table.cleared 0).1 rfl
  have c1 := openRounds_cols table.Fields table.cleared 0 rfl hb
  have c2 := openRounds_cols_empty table.Fields table.cleared 0 rfl hb
  rw [← ho]
  refine ⟨rfl, ?_, ?_, ?_, ?_, k4, f1, f2⟩
  · show (if (openRounds table.cleared 0 table.Fields).cols = "" then "*"
      else (openRounds table.cleared 0 table.Fields).cols) = _
    by_cases hnil : table.Fields = []
    · rw [if_pos (c2.mpr hnil), if_pos hnil]
    · rw [if_neg (fun h => hnil (c2.mp h)), if_neg hnil, c1]
  · simpa [Table.cleared] using k1
  · simpa [Table.cleared, keysMapOf] using k3
  · simpa [Table.cleared] using k2

/-- Open, case by case.  Open of an active table changes nothing.  Open of an
inactive table with a blank Name fails and leaves the table as it was.  Open
of an inactive table with a non-blank Name and a first blank field name at
index `i` fails, leaves the `active` flag off, and leaves the derived state
reset and rebuilt from the fields before index `i` only.  Open of an inactive
table that succeeds marks it active with every derived component computed
from the complete field list. -/
theorem Open_derived_state (table : Table) :
    (table.active = true → table.Open = (table, none)) ∧
    (table.active = false → TrimSpace table.Name = "" →
      table.Open = (table, some (Error.errorString "Table name cannot be empty"))) ∧
    (table.active = false → TrimSpace table.Name ≠ "" →
      ∀ before f after, table.Fields = before ++ f :: after →
        (∀ g ∈ before, TrimSpace g.Name ≠ "") → TrimSpace f.Name = "" →
        ∃ t, table.Open = (t, some (Error.errorString
            ("Fields[" ++ toString before.length ++ "]: name cannot be empty"))) ∧
          t.active = false ∧
          t.cols = Join (before.map (fun f => f.Name)) ", " ∧
          t.keys = before.map Field.GetKey ∧
          t.keysMap = keysMapOf before ∧
          t.primaryKey = primaryKeyIndices 0 before ∧
          t.autoInc = firstAutoInc 0 before ∧
          t.Name = table.Name ∧ t.Fields = table.Fields) ∧
    (table.active = false → ∀ t, table.Open = (t, none) →
      t.active = true ∧
      t.cols = (if table.Fields = [] then "*"
        else Join (table.Fields.map (fun f => f.Name)) ", ") ∧
      t.keys = table.Fields.map Field.GetKey ∧
      t.keysMap = keysMapOf table.Fields ∧
      t.primaryKey = primaryKeyIndices 0 table.Fields ∧
      t.autoInc = firstAutoInc 0 table.Fields ∧
      t.Name = table.Name ∧ t.Fields = table.Fields) := by
  refine ⟨Open_active table, ?_, ?_, fun ha t ho => Open_inactive_derived table t ha ho⟩
  · intro ha hn
    rw [Open_inactive table ha, if_pos hn]
  · intro ha hn before f after hs hb hf
    refine ⟨_, Open_inactive_blank_field table before after f ha hn hs hb hf, ?_⟩
    obtain ⟨f1, f2, f3, _⟩ := openRounds_frame before table.cleared 0
    obtain ⟨k1, k2, k3⟩ := openRounds_keys before table.cleared 0
    have k4 := (openRounds_autoInc before table.cleared 0).1 rfl
    have c1 := openRounds_cols before table.cleared 0 rfl hb
    refine ⟨?_, c1, ?_, ?_, ?_, k4, f1, f2⟩
    · rw [f3]; exact ha
    · simpa [Table.cleared] using k1
    · simpa [Table.cleared, keysMapOf] using k3
    · simpa [Table.cleared] using k2

/-- The successful case on `users`: the first Open computes the derived state
from the four fields. -/
theorem Open_derived_state_users :
    users.active = false ∧ users.Open = (users.Open.1, none) ∧
    users.Open.1.cols = "id, name, email, created_at" ∧
    users.Open.1.keys = ["id", "name", "email", "created_at"] ∧
    users.Open.1.primaryKey = [0] ∧ users.Open.1.autoInc = 0 := by
  obtain ⟨_, h2, h3, _, h5, h6, _⟩ :=
    (Open_derived_state users).2.2.2 rfl users.Open.1 (by decide)
  exact ⟨rfl, by decide, h2.trans (by decide), h3.trans (by decide), h5.trans (by decide),
    h6.trans (by decide)⟩

/-- C11: Open on a blank field name is not atomic.  The table `users` was
opened, its field list then replaced by `name`, `id` and a field with a blank
name, and the table closed.  Open fails on the blank name at index 2, and the
derived state it leaves is neither the one before the call nor one of the
complete field list: it was reset and rebuilt from `name` and `id` alone.
The sibling failure, a blank table name, leaves the table exactly as it was.
The half-built state is read: `Record(true)` of an insert result on that
table takes `autoInc`, `Fields` and `keys` as they are, and returns the
error of Open when the table is as it was before the failed Open, and the
error of `LastInsertId()` when it is as the failed Open left it. -/
theorem Open_blank_field_half_built :
    usersReordered.Close.Open.2 =
      some (Error.errorString "Fields[2]: name cannot be empty") ∧
    usersReordered.Close.Open.1.active = false ∧
    usersReordered.Close.cols = "id, name, email, created_at" ∧
    usersReordered.Close.keys = ["id", "name", "email", "created_at"] ∧
    usersReordered.Close.keysMap =
      [("id", "id"), ("name", "name"), ("email", "email"), ("created_at", "created_at")] ∧
    usersReordered.Close.primaryKey = [0] ∧
    usersReordered.Close.autoInc = 0 ∧
    usersReordered.Close.Open.1.cols = "name, id" ∧
    usersReordered.Close.Open.1.keys = ["name", "id"] ∧
    usersReordered.Close.Open.1.keysMap = [("name", "name"), ("id", "id")] ∧
    usersReordered.Close.Open.1.primaryKey = [1] ∧
    usersReordered.Close.Open.1.autoInc = 1 ∧
    usersRenamedBlank.Close.Open =
      (usersRenamedBlank.Close, some (Error.errorString "Table name cannot be empty")) ∧
    (insertResultOn usersReordered.Close).Record emptyDataSet true =
      some { queried := [], record := none,
             err := some (Error.errorString "Fields[2]: name cannot be empty") } ∧
    (insertResultOn usersReordered.Close.Open.1).Record emptyDataSet true =
      some { queried := [], record := none, err := some (Error.errorString "no id") } := by
  decide

/-! ## Select and the Count family -/

theorem Open_derived (table t : Table) (hc : table.Consistent) (ho : table.Open = (t, none)) :
    t.active = true ∧
    t.cols = (if table.Fields = [] then "*"
      else Join (table.Fields.map (fun f => f.Name)) ", ") ∧
    t.keys = table.Fields.map Field.GetKey ∧
    t.keysMap = keysMapOf table.Fields ∧
    t.primaryKey = primaryKeyIndices 0 table.Fields ∧
    t.autoInc = firstAutoInc 0 table.Fields ∧
    t.Name = table.Name ∧ t.Fields = table.Fields := by
  cases ha : table.active with
  | false => exact Open_inactive_derived table t ha ho
  | true =>
    rw [Open_active table ha] at ho
    simp only [Prod.mk.injEq, and_true] at ho
    subst ho
    have h := Open_inactive_derived table.Close table (by simp [Table.Close]) (hc ha)
    simpa [Table.Close] using h

/-- C15: when Open succeeds, the column list Select uses is the field names
joined by `", "` in declaration order, or `*` for a table without fields, and
Select hands to the executor exactly
`SELECT <column list> FROM <table> <clauses>` with the caller's clauses and
arguments unchanged, and returns what the query yields. -/
theorem Select_statement (rd : Reader) (table t : Table) (db : DB) (clauses : String)
    (args : List Value) (hc : table.Consistent) (ho : table.Open = (t, none)) :
    t.cols = (if table.Fields = [] then "*"
      else Join (table.Fields.map (fun f => f.Name)) ", ") ∧
    (table.Select rd db clauses args).queried =
      [{ query := "SELECT " ++ (if table.Fields = [] then "*"
             else Join (table.Fields.map (fun f => f.Name)) ", ") ++
           " FROM " ++ table.Name ++ " " ++ clauses,
         args := args }] ∧
    (table.Select rd db clauses args).table = t ∧
    ((table.Select rd db clauses args).rows, (table.Select rd db clauses args).err) =
      rd.MapQuery t.keysMap db
        ("SELECT " ++ (if table.Fields = [] then "*"
             else Join (table.Fields.map (fun f => f.Name)) ", ") ++
           " FROM " ++ table.Name ++ " " ++ clauses) args := by
  obtain ⟨_, hcols, _, _, _, _, hn, _⟩ := Open_derived table t hc ho
  refine ⟨hcols, ?_, ?_, ?_⟩ <;> simp [Table.Select, ho, hcols, hn]

/-- Witness of C15 on `users` and on a table without fields. -/
theorem Select_statement_users :
    users.Consistent ∧ users.Open = (users.Open.1, none) ∧
    (users.Select quietReader { executed := [] } "WHERE id = ? ORDER BY name"
        [Value.int 1]).queried =
      [{ query := "SELECT id, name, email, created_at FROM users WHERE id = ? ORDER BY name",
         args := [Value.int 1] }] ∧
    ((Table.declare "log" [] none none none).Select quietReader { executed := [] } "" []).queried =
      [{ query := "SELECT * FROM log ", args := [] }] :=
  ⟨by decide, by decide,
    (Select_statement quietReader users users.Open.1 { executed := [] }
      "WHERE id = ? ORDER BY name" [Value.int 1] (by decide) (by decide)).2.1.trans (by decide),
    (Select_statement quietReader (Table.declare "log" [] none none none)
      (Table.declare "log" [] none none none).Open.1 { executed := [] }
      "" [] (by decide) (by decide)).2.1.trans (by decide)⟩

/-- C13: `CountValue` delegates to `Count`.  For a nil value the condition is
`<col> IS NULL` and the arguments are the caller's; for a string the
condition is `TRIM(<col>) = ?` and the trimmed string is put before the
caller's arguments; for any other value the condition is `<col> = ?` and the
value is put before the caller's arguments.  The where-string handed to
`Count` is the condition alone when the caller's is empty, and
`<condition> AND <where>` otherwise. -/
theorem CountValue_delegates (rd : Reader) (table : Table) (db : DB) (field : Field)
    (whereSql : String) (args : List Value) :
    table.CountValue rd db field Value.nil whereSql args =
      table.Count rd db
        (if whereSql = "" then field.Name ++ " IS NULL"
         else field.Name ++ " IS NULL" ++ " AND " ++ whereSql) args ∧
    (∀ s : String, table.CountValue rd db field (Value.str s) whereSql args =
      table.Count rd db
        (if whereSql = "" then "TRIM(" ++ field.Name ++ ") = ?"
         else "TRIM(" ++ field.Name ++ ") = ?" ++ " AND " ++ whereSql)
        (Value.str (TrimSpace s) :: args)) ∧
    (∀ value : Value, value ≠ Value.nil → (∀ s : String, value ≠ Value.str s) →
      table.CountValue rd db field value whereSql args =
        table.Count rd db
          (if whereSql = "" then field.Name ++ " = ?"
           else field.Name ++ " = ?" ++ " AND " ++ whereSql)
          (value :: args)) := by
  have e1 : field.Name ++ " " ++ "IS NULL" = field.Name ++ " IS NULL" := by
    rw [String.append_assoc]; rfl
  have e2 : "TRIM(" ++ field.Name ++ ")" ++ " " ++ "= ?" = "TRIM(" ++ field.Name ++ ") = ?" := by
    rw [String.append_assoc, String.append_assoc ("TRIM(" ++ field.Name)]; rfl
  have e3 : field.Name ++ " " ++ "= ?" = field.Name ++ " = ?" := by
    rw [String.append_assoc]; rfl
  refine ⟨?_, ?_, ?_⟩
  · simp only [Table.CountValue, e1]
  · intro s
    simp only [Table.CountValue, e2, List.singleton_append]
  · intro value h1 h2
    cases value with
    | nil => exact absurd rfl h1
    | str s => exact absurd rfl (h2 s)
    | bool b => simp only [Table.CountValue, e3, List.singleton_append]
    | int n => simp only [Table.CountValue, e3, List.singleton_append]
    | func out => simp only [Table.CountValue, e3, List.singleton_append]

/-- Witness of C13 on `users`: the three kinds of value, with and without a
caller's where-string. -/
theorem CountValue_delegates_users :
    (users.CountValue quietReader { executed := [] } (column "email") Value.nil "" []).queried =
      [{ query := "SELECT COUNT(*) FROM users WHERE email IS NULL", args := [] }] ∧
    (users.CountValue quietReader { executed := [] } (column "email") (Value.str " a@x.com ")
        "id <> ?" [Value.int 5]).queried =
      [{ query := "SELECT COUNT(*) FROM users WHERE TRIM(email) = ? AND id <> ?",
         args := [Value.str "a@x.com", Value.int 5] }] ∧
    (users.CountValue quietReader { executed := [] } (column "age") (Value.int 30)
        "" []).queried =
      [{ query := "SELECT COUNT(*) FROM users WHERE age = ?", args := [Value.int 30] }] :=
  ⟨(congrArg CountOutcome.queried (CountValue_delegates quietReader users { executed := [] }
      (column "email") "" []).1).trans (by decide),
    (congrArg CountOutcome.queried ((CountValue_delegates quietReader users { executed := [] }
      (column "email") "id <> ?" [Value.int 5]).2.1 " a@x.com ")).trans (by decide),
    (congrArg CountOutcome.queried ((CountValue_delegates quietReader users { executed := [] }
      (column "age") "" []).2.2 (Value.int 30) (by decide) (fun _ h => nomatch h))).trans (by decide)⟩

/-! ## Records: lookups after writes -/

theorem get?_set_self {α : Type} : ∀ (m : Assoc α) (k : String) (v : α),
    Assoc.get? (Assoc.set m k v) k = some v := by
  intro m
  induction m with
  | nil => intro k v; simp [Assoc.set, Assoc.get?]
  | cons kv rest ih =>
    intro k v
    obtain ⟨k0, v0⟩ := kv
    by_cases h : k0 = k
    · simp [Assoc.set, Assoc.get?, h]
    · simp [Assoc.set, Assoc.get?, h, ih]

theorem get?_set_other {α : Type} : ∀ (m : Assoc α) (k k' : String) (v : α), k ≠ k' →
    Assoc.get? (Assoc.set m k v) k' = Assoc.get? m k' := by
  intro m
  induction m with
  | nil => intro k k' v h; simp [Assoc.set, Assoc.get?, h]
  | cons kv rest ih =>
    intro k k' v h
    obtain ⟨k0, v0⟩ := kv
    by_cases h0 : k0 = k
    · subst h0
      simp [Assoc.set, Assoc.get?, h]
    · by_cases h1 : k0 = k'
      · subst h1
        simp [Assoc.set, Assoc.get?, h0]
      · simp [Assoc.set, Assoc.get?, h0, h1, ih k k' v h]

theorem get?_merge : ∀ (row record : Map) (k : String),
    Assoc.get? (Map.merge record row) k =
      match Assoc.get? row k with
      | some v => some v
      | none => Assoc.get? record k := by
  intro row
  induction row with
  | nil => intro record k; simp [Map.merge, Assoc.get?]
  | cons kv rest ih =>
    intro record k
    obtain ⟨k0, v0⟩ := kv
    have hm : Map.merge record ((k0, v0) :: rest) = Assoc.set (Map.merge record rest) k0 v0 := rfl
    rw [hm]
    by_cases h : k0 = k
    · subst h
      simp [get?_set_self, Assoc.get?]
    · rw [get?_set_other _ _ _ _ h, ih]
      simp [Assoc.get?, h]

theorem get?_clone (record : Map) (k : String) :
    Assoc.get? (Map.clone record) k = Assoc.get? record k := by
  have h := get?_merge record [] k
  have hc : Map.clone record = Map.merge [] record := rfl
  rw [hc, h]
  cases Assoc.get? record k <;> simp [Assoc.get?]

theorem get?_foldl_set {β : Type} (key : β → String) (val : β → Value) :
    ∀ (fs : List β) (m : Map) (k : String),
    Assoc.get? (fs.foldl (fun acc f => Assoc.set acc (key f) (val f)) m) k =
      match fs.reverse.find? (fun f => decide (key f = k)) with
      | some f => some (val f)
      | none => Assoc.get? m k := by
  intro fs
  induction fs with
  | nil => intro m k; simp
  | cons f rest ih =>
    intro m k
    rw [List.foldl_cons, ih, List.reverse_cons, List.find?_append]
    cases hr : rest.reverse.find? (fun f => decide (key f = k)) with
    | some g => simp
    | none =>
      by_cases hk : key f = k
      · subst hk
        simp [get?_set_self]
      · simp [hk, get?_set_other _ _ _ _ hk]

/-! ## Insert: resolved values and the record of the result -/

theorem insertVars_recMap (record : Map) : ∀ (fields : List Field) (vars : InsertVars),
    (insertVars record fields vars).recMap =
      (fields.filter insertIncluded).foldl
        (fun m f => Assoc.set m f.GetKey (insertValue f record)) vars.recMap := by
  intro fields
  induction fields with
  | nil => intro vars; simp [insertVars]
  | cons f r ih =>
    intro vars
    have h := ih (insertStep record vars f)
    simp only [insertVars, List.foldl_cons] at h ⊢
    cases hi : insertIncluded f <;> simp [hi, insertStep] at h ⊢ <;> exact h

/-- C16: when Open succeeds and every validation passes, `DefaultInsert`
executes its statement with, for every field that is neither read-only nor
auto-increment, the value the record holds under the field's key when it
holds one that is not nil, and the output of the field's default provider
when it holds none or nil; and the record of the returned result, as
`Record(false)` returns it without any query, has under each key the value
resolved for the last included field with that key, and the caller's entry
under every other key. -/
theorem DefaultInsert_values (env : Env) (table t : Table) (db : DB) (record : Map)
    (hc : table.Consistent) (ho : table.Open = (t, none))
    (hv : ∀ before field after, t.Fields = before ++ field :: after →
      insertIncluded field = true →
      insertCheck env db t record (insertInit record) before field = none) :
    ∃ (out : Outcome) (r : Result) (value : Field → Value),
      table.DefaultInsert env db record = some out ∧ out.result = some r ∧
      out.db.executed = db.executed ++
        [{ query := "INSERT INTO " ++ table.Name ++ "(" ++
             Join ((table.Fields.filter insertIncluded).map (fun f => f.Name)) ", " ++
             ")VALUES(" ++
             Join ((table.Fields.filter insertIncluded).map (fun _ => "?")) ", " ++ ")",
           args := (table.Fields.filter insertIncluded).map value }] ∧
      (∀ f ∈ table.Fields, f.ReadOnly = false → f.AutoInc = false →
        f ∈ table.Fields.filter insertIncluded ∧
        (∀ v, Assoc.get? record f.GetKey = some v → v ≠ Value.nil → value f = v) ∧
        (Assoc.get? record f.GetKey = none ∨ Assoc.get? record f.GetKey = some Value.nil →
          value f = f.GetDefault)) ∧
      (∀ ds : DataSet, r.Record ds false =
        some { queried := [], record := some r.context.Record, err := none }) ∧
      (∀ k : String, Assoc.get? r.context.Record k =
        match (table.Fields.filter insertIncluded).reverse.find?
            (fun f => decide (f.GetKey = k)) with
        | some f => some (value f)
        | none => Assoc.get? record k) := by
  obtain ⟨hk, _, hf, hn, _⟩ := Open_ok table t hc ho
  have hout := DefaultInsert_ok env table t db record ho hk hv
  refine ⟨_, _, fun f => insertValue f record, hout, rfl, ?_, ?_, ?_, ?_⟩
  · obtain ⟨h1, h2, h3⟩ := insertVars_lists record t.Fields (insertInit record)
    rw [hf] at h1 h2 h3
    simp only [insertInit, List.nil_append] at h1 h2 h3
    simp only [insertOutcome, insertInit, hf, hn, h1, h2, h3]
    simp [ColSepWide, Placeholder]
  · intro f hmem hro hai
    refine ⟨by simp [hmem, insertIncluded, hro, hai], ?_, ?_⟩
    · intro v hg hv'
      simp [insertValue, hro, Map.index, hg, hv']
    · intro hg
      rcases hg with hg | hg <;> simp [insertValue, hro, Map.index, hg]
  · intro ds
    simp [Result.Record]
  · intro k
    show Assoc.get? (insertVars record t.Fields (insertInit record)).recMap k = _
    rw [insertVars_recMap, get?_foldl_set, hf]
    simp only [insertInit, get?_clone]
    generalize List.find? (fun f => decide (f.GetKey = k))
      (List.filter insertIncluded table.Fields).reverse = found
    cases found <;> rfl

/-- Witness of C16 on `users`: `name` is supplied, `email` is nil in the
record and falls back to the (absent) default, `created_at` is resolved from
its provider; the record of the result holds the resolved values, keeps the
caller's entry `note` and has no entry for `id`. -/
theorem DefaultInsert_values_users :
    users.Consistent ∧ users.Open = (users.Open.1, none) ∧
    ∃ (out : Outcome) (r : Result),
      users.DefaultInsert acceptAll { executed := [] }
        [("note", Value.str "n"), ("name", Value.str "a"), ("email", Value.nil)] = some out ∧
      out.result = some r ∧
      out.db.executed =
        [{ query := "INSERT INTO users(name, email, created_at)VALUES(?, ?, ?)",
           args := [Value.str "a", Value.nil, Value.str "2024-01-01 00:00:00"] }] ∧
      r.Record emptyDataSet false =
        some { queried := [], record := some r.context.Record, err := none } ∧
      Assoc.get? r.context.Record "note" = some (Value.str "n") ∧
      Assoc.get? r.context.Record "name" = some (Value.str "a") ∧
      Assoc.get? r.context.Record "email" = some Value.nil ∧
      Assoc.get? r.context.Record "created_at" = some (Value.str "2024-01-01 00:00:00") ∧
      Assoc.get? r.context.Record "id" = none := by
  obtain ⟨out, r, value, h1, h2, _, _, h5, _⟩ :=
    DefaultInsert_values acceptAll users users.Open.1 { executed := [] }
      [("note", Value.str "n"), ("name", Value.str "a"), ("email", Value.nil)]
      (by decide) (by decide) (fun _ _ _ _ _ => rfl)
  have hout : some out = users.DefaultInsert acceptAll { executed := [] }
      [("note", Value.str "n"), ("name", Value.str "a"), ("email", Value.nil)] := h1.symm
  have hval : users.DefaultInsert acceptAll { executed := [] }
      [("note", Value.str "n"), ("name", Value.str "a"), ("email", Value.nil)] =
      some (insertOutcome acceptAll users.Open.1 { executed := [] }
        (insertVars [("note", Value.str "n"), ("name", Value.str "a"), ("email", Value.nil)]
          users.Open.1.Fields
          (insertInit [("note", Value.str "n"), ("name", Value.str "a"),
            ("email", Value.nil)]))) := by decide
  rw [hval] at hout
  cases hout
  cases h2
  exact ⟨by decide, by decide, _, _, h1, rfl, by decide, h5 emptyDataSet, by decide, by decide,
    by decide, by decide, by decide⟩

/-! ## Update: resolved values -/

/-- C18, as the code has it: in the statement `DefaultUpdate` executes, a
field that is neither primary key nor auto-increment and that is read-only or
has no entry in the record is included exactly when it has an on-update
provider, and is then bound to the provider's output, nil included; a field
that is not read-only and has an entry in the record is always included, bound
to the caller's value when that is not nil and to the on-update provider's
output when it is nil. -/
theorem DefaultUpdate_values (env : Env) (table : Table) (db : DB) (record : Map)
    (out : Outcome) (r : Result) (hc : table.Consistent)
    (h : table.DefaultUpdate env db record = some out) (hr : out.result = some r) :
    ∃ (fs : List Field) (value : Field → Value),
      fs.Sublist table.Fields ∧
      out.db.executed = db.executed ++
        [{ query := "UPDATE " ++ table.Name ++ " SET " ++
             Join (fs.map (fun f => f.Name ++ " = ?")) ", " ++ " WHERE " ++
             whereQuery table.Fields,
           args := fs.map value ++ whereArgs table.Fields record }] ∧
      ∀ f ∈ table.Fields, f.PrimaryKey = false → f.AutoInc = false →
        ((f.ReadOnly = true ∨ Assoc.get? record f.GetKey = none) →
          (f ∈ fs ↔ f.OnUpdate ≠ Value.nil) ∧ value f = f.GetOnUpdate) ∧
        (f.ReadOnly = false → ∀ v, Assoc.get? record f.GetKey = some v →
          f ∈ fs ∧ (v ≠ Value.nil → value f = v) ∧ (v = Value.nil → value f = f.GetOnUpdate)) := by
  obtain ⟨t, ho, _, _, _, hout, _⟩ := DefaultUpdate_inv env table db record hc out r h hr
  obtain ⟨_, _, hf, hn, _⟩ := Open_ok table t hc ho
  refine ⟨table.Fields.filter (updateIncluded record), fun f => updateValue f record,
    List.filter_sublist _, ?_, ?_⟩
  · obtain ⟨h1, h2⟩ := updateVars_lists record t.Fields (updateInit record)
    rw [hf] at h1 h2
    simp only [updateInit, List.nil_append, fragment_eq] at h1 h2
    rw [hout]
    simp only [updateOutcome, updateInit, hf, hn, h1, h2, fragment_eq]
    simp [ColSepWide]
  · intro f hmem hpk hai
    refine ⟨?_, ?_⟩
    · intro hcase
      rcases hcase with hro | hne
      · simp [updateIncluded, updateValue, hmem, hpk, hai, hro]
      · simp [updateIncluded, updateValue, hmem, hpk, hai, hne]
    · intro hro v hg
      refine ⟨by simp [updateIncluded, hmem, hpk, hai, hro, hg], ?_, ?_⟩
      · intro hv
        simp [updateValue, hro, hg, Map.index, hv]
      · intro hv
        simp [updateValue, hro, hg, Map.index, hv]

/-- Witness of the amended C18 on `notes`: the record holds a title, and the
statement binds it; `touched` has no entry and is bound to its provider's
output. -/
theorem DefaultUpdate_values_notes :
    notes.Consistent ∧
    ∃ out r, notes.DefaultUpdate acceptAll { executed := [] }
        [("id", Value.int 5), ("title", Value.str "t")] = some out ∧ out.result = some r ∧
      ∃ (fs : List Field) (value : Field → Value),
        fs.Sublist notes.Fields ∧
        out.db.executed = [] ++
          [{ query := "UPDATE " ++ notes.Name ++ " SET " ++
               Join (fs.map (fun f => f.Name ++ " = ?")) ", " ++ " WHERE " ++
               whereQuery notes.Fields,
             args := fs.map value ++
               whereArgs notes.Fields [("id", Value.int 5), ("title", Value.str "t")] }] ∧
        ∀ f ∈ notes.Fields, f.PrimaryKey = false → f.AutoInc = false →
          ((f.ReadOnly = true ∨
              Assoc.get? [("id", Value.int 5), ("title", Value.str "t")] f.GetKey = none) →
            (f ∈ fs ↔ f.OnUpdate ≠ Value.nil) ∧ value f = f.GetOnUpdate) ∧
          (f.ReadOnly = false → ∀ v,
            Assoc.get? [("id", Value.int 5), ("title", Value.str "t")] f.GetKey = some v →
            f ∈ fs ∧ (v ≠ Value.nil → value f = v) ∧
              (v = Value.nil → value f = f.GetOnUpdate)) := by
  have hex : ∃ out r, notes.DefaultUpdate acceptAll { executed := [] }
      [("id", Value.int 5), ("title", Value.str "t")] = some out ∧ out.result = some r :=
    ⟨_, _, rfl, rfl⟩
  obtain ⟨out, r, h, hr⟩ := hex
  exact ⟨by decide, out, r, h, hr,
    DefaultUpdate_values acceptAll notes { executed := [] }
      [("id", Value.int 5), ("title", Value.str "t")] out r (by decide) h hr⟩

/-- Counterexample to C18 as stated, on `notes`.  With the record `{id: 5}`
the field `touched` has no entry and its on-update provider's output is nil,
yet it is in the SET list, bound to nil.  With the record `{id: 5, title: nil}`
the field `title` is not read-only and has an entry, yet it is bound to its
on-update provider's output, not to the caller's nil. -/
theorem DefaultUpdate_values_counterexample :
    ({ column "touched" with OnUpdate := Value.func Value.nil } : Field).GetOnUpdate =
      Value.nil ∧
    (notes.DefaultUpdate acceptAll { executed := [] } [("id", Value.int 5)]).map
        (fun o => o.db.executed) =
      some [{ query := "UPDATE notes SET title = ?, touched = ? WHERE id = ?",
              args := [Value.str "untitled", Value.nil, Value.int 5] }] ∧
    (notes.DefaultUpdate acceptAll { executed := [] }
        [("id", Value.int 5), ("title", Value.nil)]).map (fun o => o.db.executed) =
      some [{ query := "UPDATE notes SET title = ?, touched = ? WHERE id = ?",
              args := [Value.str "untitled", Value.nil, Value.int 5] }] := by
  decide

/-! ## CountRecord: exclusion of the record itself -/

/-- C14: `CountRecord` with `excludeSelf` on the table `pairs`, whose
primary-key column is named `[a=b]`.  The primary-key clause of the record is
`[a=b] = ?`; the clause `CountRecord` conjoins is `[a<>b] <> ?`: the
replacement of `=` by `<>` has rewritten the column name as well as the
operator.  On `users`, whose names hold no `=`, only the operator changes. -/
theorem CountRecord_rewrites_names :
    (pairs.WherePrimaryKey [("[a=b]", Value.int 1), ("note", Value.str "x")]).map
        (fun w => (w.query, w.args, w.err)) =
      some ("[a=b] = ?", [Value.int 1], none) ∧
    (pairs.CountRecord quietReader { executed := [] } (column "note")
        [("[a=b]", Value.int 1), ("note", Value.str "x")] true "" []).map
        (fun o => o.queried) =
      some [{ query := "SELECT COUNT(*) FROM pairs WHERE TRIM(note) = ? AND [a<>b] <> ?",
              args := [Value.str "x", Value.int 1] }] ∧
    (users.CountRecord quietReader { executed := [] } (column "email")
        [("id", Value.int 5), ("email", Value.str " a@x.com")] true "name <> ?"
        [Value.str "b"]).map (fun o => o.queried) =
      some [{ query :=
                "SELECT COUNT(*) FROM users WHERE TRIM(email) = ? AND id <> ? AND name <> ?",
              args := [Value.str "a@x.com", Value.int 5, Value.str "b"] }] := by
  decide

/-! ## Result: the refreshed record -/

theorem firstAutoInc_spec : ∀ (fields : List Field) (i : Nat),
    (autoIncField fields = none → firstAutoInc i fields = -1) ∧
    (∀ f, autoIncField fields = some f →
      ∃ j : Nat, firstAutoInc i fields = ((i + j : Nat) : Int) ∧ fields[j]? = some f ∧
        f.AutoInc = true ∧ ∀ j' g, j' < j → fields[j']? = some g → g.AutoInc = false) := by
  intro fields
  induction fields with
  | nil => intro i; simp [autoIncField, firstAutoInc]
  | cons a rest ih =>
    intro i
    obtain ⟨ih1, ih2⟩ := ih (i + 1)
    by_cases ha : a.AutoInc = true
    · constructor
      · intro h; simp [autoIncField, ha] at h
      · intro f h
        have hf : a = f := by simpa [autoIncField, ha] using h
        subst hf
        exact ⟨0, by simp [firstAutoInc, ha], by simp, ha, by intro j' g hj; omega⟩
    · have hfind : autoIncField (a :: rest) = autoIncField rest := by
        simp [autoIncField, ha]
      constructor
      · intro h
        rw [hfind] at h
        simp [firstAutoInc, ha, ih1 h]
      · intro f h
        rw [hfind] at h
        obtain ⟨j, h1, h2, h3, h4⟩ := ih2 f h
        refine ⟨j + 1, ?_, by simpa using h2, h3, ?_⟩
        · simp only [firstAutoInc, ha]
          rw [h1]
          simp only [Bool.false_eq_true, if_false]
          congr 1
          omega
        · intro j' g hj hg
          cases j' with
          | zero =>
            simp at hg
            rw [← hg]
            simpa using ha
          | succ j'' =>
            exact h4 j'' g (by omega) (by simpa using hg)

theorem refreshRecord_spec (r : Result) (ht : r.context.Table.active = true)
    (hc : r.context.Table.Consistent) :
    r.refreshRecord =
      if r.context.State = State.StateInsert then
        match autoIncField r.context.Table.Fields with
        | none => some (Except.ok (Map.clone r.context.Record))
        | some f =>
          if f.PrimaryKey then
            match r.sqlResult with
            | none => none
            | some s =>
              match s.LastInsertId with
              | (_, some err) => some (Except.error err)
              | (id, none) =>
                some (Except.ok (Assoc.set (Map.clone r.context.Record) f.GetKey (Value.int id)))
          else some (Except.ok (Map.clone r.context.Record))
      else some (Except.ok (Map.clone r.context.Record)) := by
  obtain ⟨_, _, hk, _, _, hai, _, _⟩ :=
    Open_derived r.context.Table r.context.Table hc (Open_active _ ht)
  obtain ⟨s1, s2⟩ := firstAutoInc_spec r.context.Table.Fields 0
  unfold Result.refreshRecord
  by_cases hs : r.context.State = State.StateInsert
  · cases hfind : autoIncField r.context.Table.Fields with
    | none =>
      have : ¬ (0 : Int) ≤ r.context.Table.autoInc := by
        rw [hai, s1 hfind]; omega
      simp [hs, this]
    | some f =>
      obtain ⟨j, h1, h2, _, _⟩ := s2 f hfind
      have hidx : r.context.Table.autoInc = (j : Int) := by
        rw [hai, h1]; simp
      have hkey : r.context.Table.keys[j]? = some f.GetKey := by
        rw [hk, List.getElem?_map, h2]; rfl
      simp only [hs, hidx, Int.toNat_ofNat, h2, hkey, true_and, Int.ofNat_zero_le, if_true]
  · simp [hs]

theorem whereArgs_clone (fields : List Field) (record : Map) :
    whereArgs fields (Map.clone record) = whereArgs fields record := by
  simp [whereArgs, Map.index, get?_clone]

theorem missingKey_clone (fields : List Field) (record : Map) :
    missingKey (Map.clone record) fields = missingKey record fields := by
  simp [missingKey, get?_clone]

theorem Record_refreshed (ds : DataSet) (r : Result) (record : Map)
    (ht : r.context.Table.active = true) (hc : r.context.Table.Consistent)
    (hr : r.refreshRecord = some (Except.ok record))
    (hpk : pkFields r.context.Table.Fields ≠ [])
    (hm : missingKey record r.context.Table.Fields = none) :
    r.Record ds true =
      some { queried := [{ query := "WHERE " ++ whereQuery r.context.Table.Fields,
                           args := whereArgs r.context.Table.Fields record }],
             record := refreshedRecord record
               (ds.Select r.context.DB ("WHERE " ++ whereQuery r.context.Table.Fields)
                 (whereArgs r.context.Table.Fields record)),
             err := (ds.Select r.context.DB ("WHERE " ++ whereQuery r.context.Table.Fields)
                 (whereArgs r.context.Table.Fields record)).2 } := by
  obtain ⟨_, _, hk, _, hp, _, _, _⟩ :=
    Open_derived r.context.Table r.context.Table hc (Open_active _ ht)
  have hk' : r.context.Table.keys = r.context.Table.Fields.map Field.GetKey := hk
  have hw := WherePrimaryKey_ok r.context.Table r.context.Table record (Open_active _ ht)
    hk' hp hpk hm
  simp only [Result.Record, hr, Table.WherePrimaryKeyFlags, hw, whereQuery, whereArgs]
  cases hsel : ds.Select r.context.DB
      ("WHERE " ++ Join ((pkFields r.context.Table.Fields).map
        (fun f => f.Name ++ " = " ++ Placeholder)) " AND ")
      ((pkFields r.context.Table.Fields).map (fun f => Map.index record f.GetKey)) with
  | mk rows e =>
    cases e with
    | some err => simp [refreshedRecord]
    | none =>
      cases rows with
      | nil => simp [refreshedRecord]
      | cons row rest => simp [refreshedRecord]

theorem Record_where_fails (ds : DataSet) (r : Result) (record : Map)
    (ht : r.context.Table.active = true) (hc : r.context.Table.Consistent)
    (hr : r.refreshRecord = some (Except.ok record))
    (hbad : pkFields r.context.Table.Fields = [] ∨
      missingKey record r.context.Table.Fields ≠ none) :
    ∃ e, r.Record ds true = some { queried := [], record := none, err := some e } := by
  obtain ⟨_, _, hk, _, hp, _, _, _⟩ :=
    Open_derived r.context.Table r.context.Table hc (Open_active _ ht)
  have hk' : r.context.Table.keys = r.context.Table.Fields.map Field.GetKey := hk
  by_cases hpk : pkFields r.context.Table.Fields = []
  · have hw := WherePrimaryKey_noPK r.context.Table r.context.Table record (Open_active _ ht)
      hp hpk
    exact ⟨noPrimaryKeyError r.context.Table.Name,
      by simp [Result.Record, hr, Table.WherePrimaryKeyFlags, hw]⟩
  · cases hm : missingKey record r.context.Table.Fields with
    | none =>
      rcases hbad with h | h
      · exact absurd h hpk
      · exact absurd hm h
    | some f =>
      obtain ⟨a, hw⟩ := WherePrimaryKey_missing r.context.Table r.context.Table record
        (Open_active _ ht) hk' hp f hm
      exact ⟨missingKeyError f.GetKey,
        by simp [Result.Record, hr, Table.WherePrimaryKeyFlags, hw]⟩

/-- C17: for a result whose table is open.  `Record(false)` returns the
snapshot and issues no query.  For the result of an insert on a table whose
auto-increment field `f` is a primary key, and an execution outcome that
reports the identifier `id`, `Record(true)` builds the primary-key arguments
from the clone of the snapshot with `id` written under the key of `f`: that
record holds `id` under that key, whatever the snapshot held there, and the
snapshot's entries under every other key.  For any other result (not an
insert, no auto-increment field, or an auto-increment field that is not a
primary key) the primary-key arguments are those of the snapshot. -/
theorem Record_where_arguments (ds : DataSet) (r : Result)
    (ht : r.context.Table.active = true) (hc : r.context.Table.Consistent) :
    r.Record ds false = some { queried := [], record := some r.context.Record, err := none } ∧
    (∀ (f : Field) (s : SqlResult) (id : Int),
      r.context.State = State.StateInsert → autoIncField r.context.Table.Fields = some f →
      f.PrimaryKey = true → r.sqlResult = some s → s.LastInsertId = (id, none) →
      Assoc.get? (Assoc.set (Map.clone r.context.Record) f.GetKey (Value.int id)) f.GetKey =
        some (Value.int id) ∧
      (∀ k, k ≠ f.GetKey →
        Assoc.get? (Assoc.set (Map.clone r.context.Record) f.GetKey (Value.int id)) k =
          Assoc.get? r.context.Record k) ∧
      (missingKey (Assoc.set (Map.clone r.context.Record) f.GetKey (Value.int id))
          r.context.Table.Fields = none →
        ∃ out, r.Record ds true = some out ∧
          out.queried =
            [{ query := "WHERE " ++ whereQuery r.context.Table.Fields,
               args := whereArgs r.context.Table.Fields
                 (Assoc.set (Map.clone r.context.Record) f.GetKey (Value.int id)) }])) ∧
    ((r.context.State ≠ State.StateInsert ∨ autoIncField r.context.Table.Fields = none ∨
        ∃ f, autoIncField r.context.Table.Fields = some f ∧ f.PrimaryKey = false) →
      pkFields r.context.Table.Fields ≠ [] →
      missingKey r.context.Record r.context.Table.Fields = none →
      ∃ out, r.Record ds true = some out ∧
        out.queried =
          [{ query := "WHERE " ++ whereQuery r.context.Table.Fields,
             args := whereArgs r.context.Table.Fields r.context.Record }]) := by
  have hspec := refreshRecord_spec r ht hc
  refine ⟨by simp [Result.Record], ?_, ?_⟩
  · intro f s id hs hf hp hsql hid
    refine ⟨get?_set_self _ _ _, ?_, ?_⟩
    · intro k hk
      rw [get?_set_other _ _ _ _ (Ne.symm hk), get?_clone]
    · intro hm
      have hr : r.refreshRecord = some (Except.ok
          (Assoc.set (Map.clone r.context.Record) f.GetKey (Value.int id))) := by
        rw [hspec]
        simp [hs, hf, hp, hsql, hid]
      have hpk : pkFields r.context.Table.Fields ≠ [] := by
        intro hnil
        have hmem : f ∈ r.context.Table.Fields := List.mem_of_find?_eq_some hf
        have : f ∈ pkFields r.context.Table.Fields := by
          simp [pkFields, hmem, hp]
        rw [hnil] at this
        simp at this
      exact ⟨_, Record_refreshed ds r _ ht hc hr hpk hm, rfl⟩
  · intro hcase hpk hm
    have hr : r.refreshRecord = some (Except.ok (Map.clone r.context.Record)) := by
      rw [hspec]
      rcases hcase with h | h | ⟨f, h1, h2⟩
      · simp [h]
      · by_cases hs : r.context.State = State.StateInsert <;> simp [hs, h]
      · by_cases hs : r.context.State = State.StateInsert <;> simp [hs, h1, h2]
    have hm' : missingKey (Map.clone r.context.Record) r.context.Table.Fields = none := by
      rw [missingKey_clone]; exact hm
    refine ⟨_, Record_refreshed ds r _ ht hc hr hpk hm', ?_⟩
    simp only [whereArgs_clone]

/-- Witness of C17 on `users`: the insert result, whose snapshot holds the
caller's `id` 7, re-selects with the generated identifier 1; the update result
re-selects with the snapshot's `id` 7. -/
theorem Record_where_arguments_users :
    (users.DefaultInsert acceptAll { executed := [] }
      [("id", Value.int 7), ("name", Value.str "a")]).bind (fun o => o.result) =
      some usersInsertResult ∧
    usersInsertResult.context.Table.active = true ∧
    usersInsertResult.context.Table.Consistent ∧
    Assoc.get? usersInsertResult.context.Record "id" = some (Value.int 7) ∧
    (∃ out, usersInsertResult.Record storedDataSet true = some out ∧
      out.queried = [{ query := "WHERE id = ?", args := [Value.int 1] }]) ∧
    (∃ out, usersUpdateResult.Record storedDataSet true = some out ∧
      out.queried = [{ query := "WHERE id = ?", args := [Value.int 7] }]) := by
  refine ⟨by decide, by decide, by decide, by decide, ?_, ?_⟩
  · obtain ⟨out, h1, h2⟩ :=
      ((Record_where_arguments storedDataSet usersInsertResult (by decide) (by decide)).2.1
        { column "id" with PrimaryKey := true, AutoInc := true }
        { LastInsertId := (1, none), RowsAffected := (1, none) } 1
        (by decide) (by decide) (by decide) (by decide) (by decide)).2.2 (by decide)
    exact ⟨out, h1, h2.trans (by decide)⟩
  · obtain ⟨out, h1, h2⟩ :=
      (Record_where_arguments storedDataSet usersUpdateResult (by decide) (by decide)).2.2
        (Or.inl (by decide)) (by decide) (by decide)
    exact ⟨out, h1, h2.trans (by decide)⟩

/-- C20: for a result whose table is open, `Record(true)` returns a record
`m` exactly when the first half of the refresh yields a record (no generated
identifier is needed, or the execution outcome reports one without error),
the table has a primary key and that record holds an entry for each of its
fields, and the re-select returns no error and at least one row; `m` is then
that record overridden by the entries of the first row.  When the re-select
returns no error and no row, `Record(true)` returns a nil record and a nil
error.  The first half of the refresh yields the clone of the snapshot, or,
for an insert whose auto-increment field is a primary key, the clone with the
generated identifier under that field's key; it returns the error of
`LastInsertId()` when there is one, and does not return when the result
holds no execution outcome. -/
theorem Record_refresh_result (ds : DataSet) (r : Result)
    (ht : r.context.Table.active = true) (hc : r.context.Table.Consistent) :
    (∀ m : Map, (∃ out, r.Record ds true = some out ∧ out.record = some m) ↔
      ∃ record row rows,
        r.refreshRecord = some (Except.ok record) ∧
        pkFields r.context.Table.Fields ≠ [] ∧
        missingKey record r.context.Table.Fields = none ∧
        ds.Select r.context.DB ("WHERE " ++ whereQuery r.context.Table.Fields)
          (whereArgs r.context.Table.Fields record) = (row :: rows, none) ∧
        m = Map.merge record row) ∧
    (∀ (record row : Map) (k : String),
      Assoc.get? (Map.merge record row) k =
        match Assoc.get? row k with
        | some v => some v
        | none => Assoc.get? record k) ∧
    (∀ record : Map,
      r.refreshRecord = some (Except.ok record) →
      pkFields r.context.Table.Fields ≠ [] →
      missingKey record r.context.Table.Fields = none →
      ds.Select r.context.DB ("WHERE " ++ whereQuery r.context.Table.Fields)
        (whereArgs r.context.Table.Fields record) = ([], none) →
      r.Record ds true =
        some { queried := [{ query := "WHERE " ++ whereQuery r.context.Table.Fields,
                             args := whereArgs r.context.Table.Fields record }],
               record := none, err := none }) ∧
    r.refreshRecord =
      (if r.context.State = State.StateInsert then
        match autoIncField r.context.Table.Fields with
        | none => some (Except.ok (Map.clone r.context.Record))
        | some f =>
          if f.PrimaryKey then
            match r.sqlResult with
            | none => none
            | some s =>
              match s.LastInsertId with
              | (_, some err) => some (Except.error err)
              | (id, none) =>
                some (Except.ok (Assoc.set (Map.clone r.context.Record) f.GetKey (Value.int id)))
          else some (Except.ok (Map.clone r.context.Record))
      else some (Except.ok (Map.clone r.context.Record))) := by
  refine ⟨?_, fun record row k => get?_merge row record k, ?_, refreshRecord_spec r ht hc⟩
  · intro m
    constructor
    · rintro ⟨out, hout, hm⟩
      cases hr : r.refreshRecord with
      | none =>
        simp [Result.Record, hr] at hout
      | some res =>
        cases res with
        | error e =>
          simp [Result.Record, hr] at hout
          rw [← hout] at hm
          simp at hm
        | ok record =>
          by_cases hbad : pkFields r.context.Table.Fields = [] ∨
              missingKey record r.context.Table.Fields ≠ none
          · obtain ⟨e, he⟩ := Record_where_fails ds r record ht hc hr hbad
            rw [he] at hout
            simp at hout
            rw [← hout] at hm
            simp at hm
          · have hpk : pkFields r.context.Table.Fields ≠ [] := fun h => hbad (Or.inl h)
            have hmk : missingKey record r.context.Table.Fields = none := by
              by_contra h
              exact hbad (Or.inr h)
            rw [Record_refreshed ds r record ht hc hr hpk hmk] at hout
            simp only [Option.some.injEq] at hout
            rw [← hout] at hm
            simp only at hm
            cases hsel : ds.Select r.context.DB ("WHERE " ++ whereQuery r.context.Table.Fields)
                (whereArgs r.context.Table.Fields record) with
            | mk rows e =>
              rw [hsel] at hm
              cases e with
              | some err => simp [refreshedRecord] at hm
              | none =>
                cases rows with
                | nil => simp [refreshedRecord] at hm
                | cons row rest =>
                  simp [refreshedRecord] at hm
                  exact ⟨record, row, rest, rfl, hpk, hmk, hsel, hm.symm⟩
    · rintro ⟨record, row, rows, hr, hpk, hmk, hsel, hm⟩
      refine ⟨_, Record_refreshed ds r record ht hc hr hpk hmk, ?_⟩
      simp only [hsel, refreshedRecord, hm]
  · intro record hr hpk hmk hsel
    rw [Record_refreshed ds r record ht hc hr hpk hmk, hsel]
    rfl

/-- Witness of C20 on the insert result of `users`: with a DataSet that
returns one row the record is the snapshot with the generated identifier,
overridden by the row; with one that returns no row the record and the error
are nil. -/
theorem Record_refresh_result_users :
    usersInsertResult.context.Table.active = true ∧
    usersInsertResult.context.Table.Consistent ∧
    (∃ out m, usersInsertResult.Record storedDataSet true = some out ∧ out.record = some m ∧
      out.err = none ∧
      Assoc.get? m "id" = some (Value.int 1) ∧
      Assoc.get? m "name" = some (Value.str "stored") ∧
      Assoc.get? m "created_at" = some (Value.str "2024-01-01 00:00:00")) ∧
    usersInsertResult.Record emptyDataSet true =
      some { queried := [{ query := "WHERE id = ?", args := [Value.int 1] }],
             record := none, err := none } := by
  have h := Record_refresh_result storedDataSet usersInsertResult (by decide) (by decide)
  have h' := Record_refresh_result emptyDataSet usersInsertResult (by decide) (by decide)
  obtain ⟨out, hout, hm⟩ := (h.1 (Map.merge
      (Assoc.set (Map.clone usersInsertResult.context.Record) "id" (Value.int 1))
      [("name", Value.str "stored")])).mpr
    ⟨Assoc.set (Map.clone usersInsertResult.context.Record) "id" (Value.int 1),
      [("name", Value.str "stored")], [], rfl, by decide, by decide, rfl, rfl⟩
  refine ⟨by decide, by decide, ⟨out, _, hout, hm, ?_, by decide, by decide, by decide⟩, ?_⟩
  · have : usersInsertResult.Record storedDataSet true = some out := hout
    have hval : (usersInsertResult.Record storedDataSet true).map (fun o => o.err) =
        some none := by decide
    rw [this] at hval
    simpa using hval
  · exact (h'.2.2.1 (Assoc.set (Map.clone usersInsertResult.context.Record) "id" (Value.int 1))
      rfl (by decide) (by decide) rfl).trans (by decide)

/-! ## Index accesses are in range -/

theorem primaryKeyIndices_mem : ∀ (fields : List Field) (s i : Nat),
    i ∈ primaryKeyIndices s fields ↔
      ∃ j f, i = s + j ∧ fields[j]? = some f ∧ f.PrimaryKey = true := by
  intro fields
  induction fields with
  | nil => intro s i; simp [primaryKeyIndices]
  | cons a rest ih =>
    intro s i
    have hrest : i ∈ primaryKeyIndices (s + 1) rest ↔
        ∃ j f, i = s + (j + 1) ∧ rest[j]? = some f ∧ f.PrimaryKey = true := by
      rw [ih (s + 1) i]
      constructor
      · rintro ⟨j, f, h1, h2, h3⟩
        exact ⟨j, f, by omega, h2, h3⟩
      · rintro ⟨j, f, h1, h2, h3⟩
        exact ⟨j, f, by omega, h2, h3⟩
    have hsplit : (∃ j f, i = s + j ∧ (a :: rest)[j]? = some f ∧ f.PrimaryKey = true) ↔
        ((i = s ∧ a.PrimaryKey = true) ∨
          ∃ j f, i = s + (j + 1) ∧ rest[j]? = some f ∧ f.PrimaryKey = true) := by
      constructor
      · rintro ⟨j, f, h1, h2, h3⟩
        cases j with
        | zero =>
          simp at h2
          subst h2
          exact Or.inl ⟨by omega, h3⟩
        | succ j' => exact Or.inr ⟨j', f, h1, by simpa using h2, h3⟩
      · rintro (⟨h1, h2⟩ | ⟨j, f, h1, h2, h3⟩)
        · exact ⟨0, a, by omega, by simp, h2⟩
        · exact ⟨j + 1, f, h1, by simpa using h2, h3⟩
    rw [hsplit]
    by_cases hp : a.PrimaryKey = true
    · simp only [primaryKeyIndices, hp, if_true, List.mem_cons, hrest, and_true]
    · simp only [primaryKeyIndices, hp, if_false, hrest, and_false, false_or,
        Bool.false_eq_true]

theorem primaryKeyIndices_sorted : ∀ (fields : List Field) (s : Nat),
    (primaryKeyIndices s fields).Pairwise (· < ·) := by
  intro fields
  induction fields with
  | nil => intro s; simp [primaryKeyIndices]
  | cons a rest ih =>
    intro s
    by_cases hp : a.PrimaryKey = true
    · simp only [primaryKeyIndices, hp, if_true, List.pairwise_cons]
      refine ⟨?_, ih (s + 1)⟩
      intro i hi
      obtain ⟨j, f, h1, _, _⟩ := (primaryKeyIndices_mem rest (s + 1) i).mp hi
      omega
    · simp only [primaryKeyIndices, hp, if_false, Bool.false_eq_true]
      exact ih (s + 1)

theorem insertLoop_total (env : Env) (db : DB) (t : Table) (record : Map)
    (hk : t.keys = t.Fields.map Field.GetKey) :
    ∀ (rest pre : List Field) (vars : InsertVars), t.Fields = pre ++ rest →
    (insertLoop env db t record pre.length rest vars).isSome = true := by
  intro rest
  induction rest with
  | nil => intro pre vars _; simp [insertLoop]
  | cons f r ih =>
    intro pre vars hs
    have hs' : t.Fields = (pre ++ [f]) ++ r := by simp [hs]
    have hkey := (keys_at t hk pre r f hs).1
    have hlen1 : (pre ++ [f]).length = pre.length + 1 := by simp
    cases hi : insertIncluded f with
    | false =>
      rw [insertLoop_skip env db t record _ f _ vars _ hkey hi, ← hlen1]
      exact ih (pre ++ [f]) vars hs'
    | true =>
      rw [insertLoop_step env db t record _ f _ vars hkey hi]
      cases insertCheck env db t record vars [] f with
      | some e => rfl
      | none =>
        simp only
        rw [← hlen1]
        exact ih (pre ++ [f]) _ hs'

theorem updateLoop_total (env : Env) (db : DB) (t : Table) (record : Map)
    (hk : t.keys = t.Fields.map Field.GetKey) :
    ∀ (rest pre : List Field) (vars : UpdateVars), t.Fields = pre ++ rest →
    (updateLoop env db t record pre.length rest vars).isSome = true := by
  intro rest
  induction rest with
  | nil => intro pre vars _; simp [updateLoop]
  | cons f r ih =>
    intro pre vars hs
    have hs' : t.Fields = (pre ++ [f]) ++ r := by simp [hs]
    have hkey := (keys_at t hk pre r f hs).1
    have hlen1 : (pre ++ [f]).length = pre.length + 1 := by simp
    cases hi : updateIncluded record f with
    | false =>
      rw [updateLoop_skip env db t record _ f _ vars hkey hi, ← hlen1]
      exact ih (pre ++ [f]) vars hs'
    | true =>
      rw [updateLoop_step env db t record _ f _ vars hkey hi]
      cases updateCheck env db t record vars [] f with
      | some e => rfl
      | none =>
        simp only
        rw [← hlen1]
        exact ih (pre ++ [f]) _ hs'

theorem WherePrimaryKey_total (table t : Table) (record : Map)
    (ho : table.Open = (t, none)) (hk : t.keys = t.Fields.map Field.GetKey)
    (hp : t.primaryKey = primaryKeyIndices 0 t.Fields) :
    ∃ w, table.WherePrimaryKey record = some w ∧ w.table = t ∧
      (w.err = none → pkFields t.Fields ≠ [] ∧ missingKey record t.Fields = none) := by
  by_cases hpk : pkFields t.Fields = []
  · exact ⟨_, WherePrimaryKey_noPK table t record ho hp hpk, rfl, by simp⟩
  · cases hm : missingKey record t.Fields with
    | some f =>
      obtain ⟨a, ha⟩ := WherePrimaryKey_missing table t record ho hk hp f hm
      exact ⟨_, ha, rfl, by simp⟩
    | none =>
      exact ⟨_, WherePrimaryKey_ok table t record ho hk hp hpk hm, rfl, fun _ => ⟨hpk, rfl⟩⟩

theorem DefaultInsert_total (env : Env) (table t : Table) (db : DB) (record : Map)
    (ho : table.Open = (t, none)) (hk : t.keys = t.Fields.map Field.GetKey) :
    (table.DefaultInsert env db record).isSome = true := by
  have h := insertLoop_total env db t record hk t.Fields [] (insertInit record) (by simp)
  simp only [List.length_nil] at h
  simp only [Table.DefaultInsert, ho]
  rw [← insertInit]
  cases hl : insertLoop env db t record 0 t.Fields (insertInit record) with
  | none => rw [hl] at h; simp at h
  | some res => cases res <;> simp [DB.Exec]

theorem DefaultUpdate_total (env : Env) (table t : Table) (db : DB) (record : Map)
    (ho : table.Open = (t, none)) (hk : t.keys = t.Fields.map Field.GetKey)
    (hp : t.primaryKey = primaryKeyIndices 0 t.Fields) :
    (table.DefaultUpdate env db record).isSome = true := by
  obtain ⟨w, hw, hwt, hwe⟩ := WherePrimaryKey_total table t record ho hk hp
  cases he : w.err with
  | some e => rw [DefaultUpdate_where_err env table db record w e hw he]; rfl
  | none =>
    obtain ⟨hpk, hm⟩ := hwe he
    rw [DefaultUpdate_loop env table t db record ho hk hp hpk hm]
    have h := updateLoop_total env db t record hk t.Fields [] (updateInit record) (by simp)
    simp only [List.length_nil] at h
    cases hl : updateLoop env db t record 0 t.Fields (updateInit record) with
    | none => rw [hl] at h; simp at h
    | some res =>
      cases res with
      | error e => rfl
      | ok vars =>
        by_cases hs : vars.sets.length = 0 <;> simp [hs]

theorem Record_total (ds : DataSet) (r : Result) (refresh : Bool)
    (ht : r.context.Table.active = true) (hc : r.context.Table.Consistent)
    (hs : r.sqlResult ≠ none) :
    (r.Record ds refresh).isSome = true := by
  cases refresh with
  | false => simp [Result.Record]
  | true =>
    cases hr : r.refreshRecord with
    | none =>
      rw [refreshRecord_spec r ht hc] at hr
      exfalso
      by_cases hst : r.context.State = State.StateInsert
      · cases hf : autoIncField r.context.Table.Fields with
        | none => simp [hst, hf] at hr
        | some f =>
          by_cases hp : f.PrimaryKey = true
          · cases hsq : r.sqlResult with
            | none => exact hs hsq
            | some s =>
              simp only [hst, hf, hp, hsq, if_true] at hr
              cases hid : s.LastInsertId with
              | mk id e =>
                rw [hid] at hr
                cases e <;> simp at hr
          · simp [hst, hf, hp] at hr
      · simp [hst] at hr
    | some res =>
      cases res with
      | error e => simp [Result.Record, hr]
      | ok record =>
        by_cases hbad : pkFields r.context.Table.Fields = [] ∨
            missingKey record r.context.Table.Fields ≠ none
        · obtain ⟨e, he⟩ := Record_where_fails ds r record ht hc hr hbad
          rw [he]; rfl
        · have hpk : pkFields r.context.Table.Fields ≠ [] := fun h => hbad (Or.inl h)
          have hmk : missingKey record r.context.Table.Fields = none := by
            by_contra h
            exact hbad (Or.inr h)
          rw [Record_refreshed ds r record ht hc hr hpk hmk]; rfl

/-- C19: after a successful Open, and as long as the table is used as Open
left it, the keys are as many as the fields, `primaryKey` is the strictly
increasing list of the indices of the primary-key fields, and `autoInc` is
`-1` when no field is auto-increment and otherwise the smallest index of an
auto-increment field.  Hence `DefaultInsert`, `DefaultUpdate` and
`WherePrimaryKey` return for every record, and `Record` returns for every
result on that table that holds an execution outcome: no index access of
theirs is out of range. -/
theorem Open_invariant (table t : Table) (hc : table.Consistent)
    (ho : table.Open = (t, none)) :
    t.keys.length = t.Fields.length ∧
    t.primaryKey.Pairwise (· < ·) ∧
    (∀ i, i ∈ t.primaryKey ↔ ∃ f, t.Fields[i]? = some f ∧ f.PrimaryKey = true) ∧
    ((∀ f ∈ t.Fields, f.AutoInc = false) → t.autoInc = -1) ∧
    ((∃ f ∈ t.Fields, f.AutoInc = true) →
      ∃ (j : Nat) (f : Field), t.autoInc = (j : Int) ∧ t.Fields[j]? = some f ∧
        f.AutoInc = true ∧ ∀ j' g, j' < j → t.Fields[j']? = some g → g.AutoInc = false) ∧
    (∀ (env : Env) (db : DB) (record : Map),
      (t.DefaultInsert env db record).isSome = true ∧
      (t.DefaultUpdate env db record).isSome = true ∧
      (t.WherePrimaryKey record).isSome = true) ∧
    (∀ (ds : DataSet) (r : Result) (refresh : Bool), r.context.Table = t →
      r.sqlResult ≠ none → (r.Record ds refresh).isSome = true) := by
  obtain ⟨hact, _, hk, _, hp, hai, _, hf⟩ := Open_derived table t hc ho
  rw [← hf] at hk hp hai
  have hot : t.Open = (t, none) := Open_active t hact
  have hct : t.Consistent := by
    intro _
    cases ha : table.active with
    | true =>
      rw [Open_active table ha] at ho
      simp only [Prod.mk.injEq, and_true] at ho
      rw [← ho]
      exact hc ha
    | false =>
      have h1 := Close_Open t (by
        intro hb
        have hn : TrimSpace table.Name = "" := by
          have := (Open_inactive_derived table t ha ho).2.2.2.2.2.2.1
          rw [← this]; exact hb
        have := (Open_inactive_fails table ha).mpr (Or.inl hn)
        rw [ho] at this
        exact this rfl)
      have h2 := Close_Open table (by
        intro hn
        have := (Open_inactive_fails table ha).mpr (Or.inl hn)
        rw [ho] at this
        exact this rfl)
      have hclosed : table.Close = table := by
        cases table
        simp only [Table.Close] at *
        simp [ha]
      have hname : t.Name = table.Name := (Open_inactive_derived table t ha ho).2.2.2.2.2.2.1
      have hfields : t.Fields = table.Fields := hf
      have hooks := Open_ok table t hc ho
      rw [h1, hname, hfields, hooks.2.2.2.2.2.1, hooks.2.2.2.2.2.2.1, hooks.2.2.2.2.2.2.2,
        ← h2, hclosed]
      exact ho
  obtain ⟨s1, s2⟩ := firstAutoInc_spec t.Fields 0
  refine ⟨by rw [hk]; simp, by rw [hp]; exact primaryKeyIndices_sorted _ _, ?_, ?_, ?_, ?_, ?_⟩
  · intro i
    rw [hp, primaryKeyIndices_mem]
    constructor
    · rintro ⟨j, f, h1, h2, h3⟩
      have : i = j := by omega
      subst this
      exact ⟨f, h2, h3⟩
    · rintro ⟨f, h2, h3⟩
      exact ⟨i, f, by omega, h2, h3⟩
  · intro hall
    rw [hai]
    apply s1
    simp only [autoIncField, List.find?_eq_none]
    intro f hfm
    simp [hall f hfm]
  · rintro ⟨f, hfm, hfa⟩
    cases hfind : autoIncField t.Fields with
    | none =>
      simp only [autoIncField, List.find?_eq_none] at hfind
      exact absurd hfa (hfind f hfm)
    | some g =>
      obtain ⟨j, h1, h2, h3, h4⟩ := s2 g hfind
      exact ⟨j, g, by rw [hai, h1]; simp, h2, h3, h4⟩
  · intro env db record
    refine ⟨DefaultInsert_total env t t db record hot hk,
      DefaultUpdate_total env t t db record hot hk hp, ?_⟩
    obtain ⟨w, hw, _⟩ := WherePrimaryKey_total t t record hot hk hp
    rw [hw]; rfl
  · intro ds r refresh hrt hs
    exact Record_total ds r refresh (by rw [hrt]; exact hact) (by rw [hrt]; exact hct) hs

/-- Witness of C19 on `users`: the derived indices after Open, and the
operations on the opened table return. -/
theorem Open_invariant_users :
    users.Consistent ∧ users.Open = (users.Open.1, none) ∧
    users.Open.1.keys.length = 4 ∧ users.Open.1.primaryKey = [0] ∧
    users.Open.1.autoInc = 0 ∧
    (users.Open.1.DefaultInsert acceptAll { executed := [] } []).isSome = true ∧
    (usersInsertResult.Record emptyDataSet true).isSome = true :=
  ⟨by decide, by decide,
    (Open_invariant users users.Open.1 (by decide) (by decide)).1.trans (by decide),
    by decide, by decide,
    ((Open_invariant users users.Open.1 (by decide) (by decide)).2.2.2.2.2.1
      acceptAll { executed := [] } []).1,
    (Open_invariant users users.Open.1 (by decide) (by decide)).2.2.2.2.2.2
      emptyDataSet usersInsertResult true (by decide) (by decide)⟩

end Godac
